import Mathlib

/-!
# Verification of the USARB schedule synchronisation core

Shallow embedding of the repository's schedule-sync logic:

* `src/data_parser.py` — the lesson identity hash `get_lesson_id`
  (MD5 of the concatenated fields, truncated to 32 hex characters);
* `src/schedule_monitor.py` — normalisation (`_normalize_lesson`),
  fetching (`fetch_current_schedule`), the diff engine
  (`detect_changes`), snapshot commit (`update_snapshot`) and the
  snapshot file serialisation (`json.dump` with `indent=2`,
  `ensure_ascii=False` / `json.load`);
* `src/main.py` — the reconciliation loop `CalendarSync.sync_lessons`
  and `create_or_update_event`;
* `src/telegram_bot.py` — the `/sync` command flow (`sync_command`).

Python `dict`s are embedded as insertion-ordered association lists,
Python `int`s in schedule positions as `Nat`, and the external
collaborators (upstream fetch, CalDAV calendar) as explicit oracles
passed to the embedded functions.
-/

/-! ## Decimal representation of naturals (Python `str(int)`) -/

/-- Character for a decimal digit value (`0 ↦ '0'`, …, `9 ↦ '9'`). -/
def digitCh (d : Nat) : Char := Char.ofNat (48 + d)

/-- Little-endian decimal digits, with explicit fuel so that concrete
instances reduce in the kernel; `natDigits` supplies enough fuel. -/
def natDigitsAux : Nat → Nat → List Nat
  | _, 0 => []
  | 0, _ => []
  | fuel + 1, n + 1 => (n + 1) % 10 :: natDigitsAux fuel ((n + 1) / 10)

/-- Little-endian decimal digits of a natural number (`[]` for `0`). -/
def natDigits (n : Nat) : List Nat := natDigitsAux n n

/-- Decimal string of a natural number, modelling Python `str` applied to a
non-negative `int` (as used by the f-string interpolation of the source). -/
def natRepr (n : Nat) : String :=
  if n = 0 then "0" else String.mk ((natDigits n).reverse.map digitCh)

/-! ## Association lists: embedding of Python `dict` (insertion ordered) -/

/-- Lookup in an insertion-ordered association list (Python `d[k]` / `d.get(k)`). -/
def alookup {α : Type} : List (String × α) → String → Option α
  | [], _ => none
  | (k', v) :: tl, k => if k' = k then some v else alookup tl k

/-- Python `dict` assignment `d[k] = v`: replace the value in place if the key
is present, otherwise append the new pair. -/
def dinsert {α : Type} : List (String × α) → String → α → List (String × α)
  | [], k, v => [(k, v)]
  | (k', v') :: tl, k, v =>
    if k' = k then (k, v) :: tl else (k', v') :: dinsert tl k v

/-- The keys of an association list (Python `d.keys()`). -/
def keysOf {α : Type} (m : List (String × α)) : List String := m.map (·.1)

/-! ## Data model -/

/-- A raw lesson record as returned by the upstream fetch collaborator
(`get_raw_schedule_json(...)["week"]` entries), with the defaults the
source applies via `lesson.get(key, default)` already folded in. -/
structure RawLesson where
  day_number : Nat
  cours_nr : Nat
  cours_name : String
  cours_type : String
  cours_office : String
  teacher_name : String
deriving Repr, DecidableEq

/-- A normalised lesson as built by `ScheduleMonitor._normalize_lesson`
(`src/schedule_monitor.py` lines 54–70): the identity plus the six
descriptive fields, in the dictionary's insertion order. -/
structure NormLesson where
  event_id : String
  day_number : Nat
  lesson_number : Nat
  cours_name : String
  cours_type : String
  cours_office : String
  teacher_name : String
deriving Repr, DecidableEq

/-- One (group, week) slice of the snapshot: identity → normalised lesson. -/
abbrev WeekMap := List (String × NormLesson)

/-- A fetched schedule: week-key (string) → week slice
(`fetch_current_schedule`'s return value). -/
abbrev Sched := List (String × WeekMap)

/-- The persisted snapshot: group → week-key → identity → lesson
(`ScheduleMonitor.snapshot`). -/
abbrev Snap := List (String × Sched)

/-- The slice of a snapshot for a given group and week key. -/
def snapSlice (s : Snap) (group weekKey : String) : Option WeekMap :=
  (alookup s group).bind (fun gm => alookup gm weekKey)

/-! ## MD5 (the `hashlib.md5` collaborator used by `get_lesson_id`)

A direct implementation of MD5 on byte lists (bytes as `Nat`, 32-bit
words as `Nat` reduced modulo `2 ^ 32`), so that the identity hash of
`src/data_parser.py` is embedded faithfully rather than stubbed. -/

/-- UTF-8 encoding of a character list (Python `str.encode()`). -/
def utf8Bytes : List Char → List Nat
  | [] => []
  | c :: tl =>
    let n := c.toNat
    (if n < 128 then [n]
     else if n < 2048 then [192 + n / 64, 128 + n % 64]
     else if n < 65536 then [224 + n / 4096, 128 + n / 64 % 64, 128 + n % 64]
     else [240 + n / 262144, 128 + n / 4096 % 64, 128 + n / 64 % 64, 128 + n % 64])
    ++ utf8Bytes tl

/-- The MD5 sine-derived round constants. -/
def md5K : List Nat :=
  [3614090360, 3905402710, 606105819, 3250441966, 4118548399, 1200080426,
   2821735955, 4249261313, 1770035416, 2336552879, 4294925233, 2304563134,
   1804603682, 4254626195, 2792965006, 1236535329, 4129170786, 3225465664,
   643717713, 3921069994, 3593408605, 38016083, 3634488961, 3889429448,
   568446438, 3275163606, 4107603335, 1163531501, 2850285829, 4243563512,
   1735328473, 2368359562, 4294588738, 2272392833, 1839030562, 4259657740,
   2763975236, 1272893353, 4139469664, 3200236656, 681279174, 3936430074,
   3572445317, 76029189, 3654602809, 3873151461, 530742520, 3299628645,
   4096336452, 1126891415, 2878612391, 4237533241, 1700485571, 2399980690,
   4293915773, 2240044497, 1873313359, 4264355552, 2734768916, 1309151649,
   4149444226, 3174756917, 718787259, 3951481745]

/-- The MD5 per-round left-rotation amounts. -/
def md5S : List Nat :=
  [7, 12, 17, 22, 7, 12, 17, 22, 7, 12, 17, 22, 7, 12, 17, 22,
   5, 9, 14, 20, 5, 9, 14, 20, 5, 9, 14, 20, 5, 9, 14, 20,
   4, 11, 16, 23, 4, 11, 16, 23, 4, 11, 16, 23, 4, 11, 16, 23,
   6, 10, 15, 21, 6, 10, 15, 21, 6, 10, 15, 21, 6, 10, 15, 21]

/-- 32-bit left rotation (input assumed `< 2 ^ 32`). -/
def rotl32 (x c : Nat) : Nat :=
  ((x <<< c) % 4294967296) ||| (x >>> (32 - c))

/-- MD5 padding: `0x80`, zeros to 56 mod 64, then the 64-bit little-endian
bit length. -/
def md5Pad (msg : List Nat) : List Nat :=
  let z := (119 - msg.length % 64) % 64
  let bitLen := (8 * msg.length) % (2 ^ 64)
  msg ++ [128] ++ List.replicate z 0 ++
    (List.range 8).map (fun i => bitLen / 2 ^ (8 * i) % 256)

/-- Split a byte list into 64-byte chunks. -/
def chunks64 (l : List Nat) : List (List Nat) :=
  if h : l = [] then [] else
    have : l.length - 64 < l.length := Nat.sub_lt (List.length_pos.mpr h) (by omega)
    l.take 64 :: chunks64 (l.drop 64)
termination_by l.length
decreasing_by
  simpa only [List.length_drop] using this

/-- The `j`-th little-endian 32-bit word of a 64-byte chunk. -/
def leWord (b : List Nat) (j : Nat) : Nat :=
  b.getD (4 * j) 0 + 256 * b.getD (4 * j + 1) 0 + 65536 * b.getD (4 * j + 2) 0
    + 16777216 * b.getD (4 * j + 3) 0

/-- One MD5 round on the state `(a, b, c, d)`. -/
def md5Round (m : List Nat) (st : Nat × Nat × Nat × Nat) (i : Nat) :
    Nat × Nat × Nat × Nat :=
  let a := st.1
  let b := st.2.1
  let c := st.2.2.1
  let d := st.2.2.2
  let f :=
    if i < 16 then (b &&& c) ||| ((b ^^^ 4294967295) &&& d)
    else if i < 32 then (d &&& b) ||| ((d ^^^ 4294967295) &&& c)
    else if i < 48 then b ^^^ c ^^^ d
    else c ^^^ (b ||| (d ^^^ 4294967295))
  let g :=
    if i < 16 then i
    else if i < 32 then (5 * i + 1) % 16
    else if i < 48 then (3 * i + 5) % 16
    else (7 * i) % 16
  let t := (f + a + md5K.getD i 0 + leWord m g) % 4294967296
  (d, (b + rotl32 t (md5S.getD i 0)) % 4294967296, b, c)

/-- Process one 64-byte chunk. -/
def md5Chunk (st : Nat × Nat × Nat × Nat) (chunk : List Nat) :
    Nat × Nat × Nat × Nat :=
  let r := (List.range 64).foldl (md5Round chunk) st
  ((st.1 + r.1) % 4294967296, (st.2.1 + r.2.1) % 4294967296,
   (st.2.2.1 + r.2.2.1) % 4294967296, (st.2.2.2 + r.2.2.2) % 4294967296)

/-- The four little-endian bytes of a 32-bit word. -/
def wordLE4 (w : Nat) : List Nat :=
  [w % 256, w / 256 % 256, w / 65536 % 256, w / 16777216 % 256]

/-- The 16-byte MD5 digest of a byte list. -/
def md5Digest (msg : List Nat) : List Nat :=
  let r := (chunks64 (md5Pad msg)).foldl md5Chunk
    (1732584193, 4023233417, 2562383102, 271733878)
  wordLE4 r.1 ++ wordLE4 r.2.1 ++ wordLE4 r.2.2.1 ++ wordLE4 r.2.2.2

/-- The sixteen lowercase hex digits. -/
def hexDigits : List Char :=
  ['0', '1', '2', '3', '4', '5', '6', '7']
    ++ ['8', '9', 'a', 'b', 'c', 'd', 'e', 'f']

/-- Hex character of a nibble. -/
def hexCh (n : Nat) : Char := hexDigits.getD n '0'

/-- Two lowercase hex characters of a byte. -/
def byteHex (b : Nat) : List Char := [hexCh (b / 16 % 16), hexCh (b % 16)]

/-- The 32 characters of `hashlib.md5(s.encode()).hexdigest()`. -/
def md5HexChars (s : String) : List Char :=
  ((md5Digest (utf8Bytes s.data)).map byteHex).flatten

/-! ## Lesson identity -/

/-- `get_lesson_id` from `src/data_parser.py` (lines 13–36): the MD5 hex
digest of the concatenation
`f"{group_name}{week}{lesson_day}{lesson_nr}{lesson_name}{lesson_type}{teacher}"`,
sliced to 32 characters (`hexdigest()[:32]`). -/
def get_lesson_id (group_name : String) (week lesson_day lesson_nr : Nat)
    (lesson_name lesson_type teacher : String) : String :=
  let to_hash := group_name ++ natRepr week ++ natRepr lesson_day
    ++ natRepr lesson_nr ++ lesson_name ++ lesson_type ++ teacher
  String.mk ((md5HexChars to_hash).take 32)

/-- Modelled from the spec: `generate_event_id` is imported from
`data_parser` by `main.py` and `schedule_monitor.py` but is not present in
`src/data_parser.py`; only its call sites are in `src/`. Per spec §4.1 the
identity is the truncated MD5 hex digest of the UTF-8 concatenation of the
fields, in a fixed order; the call sites pass
`(group_name, week, day_number, lesson_number, cours_name, cours_type)`,
so it is modelled as the MD5 hash of exactly those six fields concatenated,
mirroring `get_lesson_id`'s construction. -/
def generate_event_id (group_name : String) (week day_number lesson_number : Nat)
    (cours_name cours_type : String) : String :=
  String.mk ((md5HexChars (group_name ++ natRepr week ++ natRepr day_number
    ++ natRepr lesson_number ++ cours_name ++ cours_type)).take 32)

/-! ## Schedule monitor (`src/schedule_monitor.py`) -/

/-- `ScheduleMonitor._normalize_lesson` (lines 54–70): build the normalised
lesson dictionary from a raw record. -/
def normalizeLesson (lesson : RawLesson) (group_name : String) (week : Nat) :
    NormLesson :=
  { event_id := generate_event_id group_name week lesson.day_number
      lesson.cours_nr lesson.cours_name lesson.cours_type
    day_number := lesson.day_number
    lesson_number := lesson.cours_nr
    cours_name := lesson.cours_name
    cours_type := lesson.cours_type
    cours_office := lesson.cours_office
    teacher_name := lesson.teacher_name }

/-- The upstream fetch collaborator (`get_raw_schedule_json`): either raises
(`.error`), or returns a JSON document whose `"week"` entry may be missing
(`none`, turned into `[]` by the source's `raw_data.get("week") or []`). -/
abbrev FetchOracle := Nat → Except String (Option (List RawLesson))

/-- `ScheduleMonitor.fetch_current_schedule` (lines 72–92): normalise and
index each successfully fetched week by `event_id`; a week whose fetch
raises is skipped (`continue`) and is absent from the result. -/
def fetchCurrentSchedule (group_name : String) (weeks : List Nat)
    (fetch : FetchOracle) : Sched :=
  weeks.foldl
    (fun current week =>
      match fetch week with
      | .error _ => current
      | .ok rawWeek =>
        let entries := rawWeek.getD []
        let week_key := natRepr week
        let current := dinsert current week_key []
        entries.foldl
          (fun current lesson =>
            let normalized := normalizeLesson lesson group_name week
            let wm := (alookup current week_key).getD []
            dinsert current week_key (dinsert wm normalized.event_id normalized))
          current)
    []

/-- `ScheduleChange` (dataclass of `src/schedule_monitor.py`, lines 14–23). -/
structure SChange where
  type : String
  week : Nat
  day_number : Nat
  lesson_number : Nat
  old_lesson : Option NormLesson
  new_lesson : Option NormLesson
  event_id : Option String
deriving Repr, DecidableEq

/-- The field-by-field comparison of `detect_changes` (lines 155–159):
all fields except `event_id`. -/
def lessonFieldsEq (a b : NormLesson) : Bool :=
  a.day_number == b.day_number && a.lesson_number == b.lesson_number
    && a.cours_name == b.cours_name && a.cours_type == b.cours_type
    && a.cours_office == b.cours_office && a.teacher_name == b.teacher_name

/-- The body of `detect_changes`'s per-week loop (lines 114–168): the added
changes, then the removed changes, then the modified changes for one week.
The source iterates Python sets (`current_ids - saved_ids`, …); here each
set difference or intersection is iterated in the insertion order of the
dictionary it filters (the output order is not semantically significant). -/
def detectWeekChanges (week : Nat) (saved_week current_week : WeekMap) :
    List SChange :=
  let current_ids := keysOf current_week
  let saved_ids := keysOf saved_week
  let added := current_week.filter (fun p => ! saved_ids.contains p.1)
  let removed := saved_week.filter (fun p => ! current_ids.contains p.1)
  (added.map (fun p =>
    ⟨"added", week, p.2.day_number, p.2.lesson_number, none, some p.2, some p.1⟩))
  ++ (removed.map (fun p =>
    ⟨"removed", week, p.2.day_number, p.2.lesson_number, some p.2, none, some p.1⟩))
  ++ (current_week.filterMap (fun p =>
    match alookup saved_week p.1 with
    | none => none
    | some saved_lesson =>
      if lessonFieldsEq p.2 saved_lesson then none
      else some ⟨"modified", week, p.2.day_number, p.2.lesson_number,
        some saved_lesson, some p.2, some p.1⟩))

/-- `ScheduleMonitor.detect_changes` (lines 94–170), given the current
schedule (the `current_schedule is None` branch refetches first): compare
the snapshot's slice for the group against the current schedule, week by
week. -/
def detectChangesList (snapshot : Snap) (group_name : String)
    (weeks : List Nat) (current_schedule : Sched) : List SChange :=
  let saved_schedule := (alookup snapshot group_name).getD []
  weeks.foldl
    (fun changes week =>
      let week_key := natRepr week
      let current_week := (alookup current_schedule week_key).getD []
      let saved_week := (alookup saved_schedule week_key).getD []
      changes ++ detectWeekChanges week saved_week current_week)
    []

/-- `ScheduleMonitor.update_snapshot` (lines 172–184) with the schedule
already fetched: ensure the group key exists, then assign
`snapshot[group][str(week)] = schedule.get(str(week), {})` for every
requested week. -/
def updateSnapshot (snapshot : Snap) (group_name : String) (weeks : List Nat)
    (schedule : Sched) : Snap :=
  let snapshot :=
    if (alookup snapshot group_name).isSome then snapshot
    else snapshot ++ [(group_name, [])]
  weeks.foldl
    (fun sn week =>
      let week_key := natRepr week
      let gm := (alookup sn group_name).getD []
      dinsert sn group_name (dinsert gm week_key ((alookup schedule week_key).getD [])))
    snapshot

/-- `update_snapshot` with `schedule=None`: the source fetches the current
schedule itself before committing. -/
def updateSnapshotAuto (snapshot : Snap) (group_name : String)
    (weeks : List Nat) (fetch : FetchOracle) : Snap :=
  updateSnapshot snapshot group_name weeks (fetchCurrentSchedule group_name weeks fetch)

/-! ## Reconciliation engine (`src/main.py`) -/

/-- Outcome of the calendar collaborator's `save_event` call: success, or an
exception carrying its message string. -/
inductive SaveOutcome where
  | ok
  | raise (msg : String)
deriving Repr, DecidableEq

/-- Python's substring test `needle in hay`, on character lists. -/
def strContains (hay needle : List Char) : Bool :=
  match hay with
  | [] => needle.isEmpty
  | _ :: tl => needle.isPrefixOf hay || strContains tl needle

/-- The error-handling core of `CalendarSync.create_or_update_event`
(`src/main.py` lines 192–203): saving succeeds, or the raised exception's
message is inspected — a message containing `"412 Precondition Failed"` is
treated as "already exists" and reported as success, anything else as
failure. -/
def createOrUpdateEventResult (outcome : SaveOutcome) : Bool :=
  match outcome with
  | .ok => true
  | .raise msg => strContains msg.data "412 Precondition Failed".data

/-- The counters of `sync_lessons` (lines 253–256). -/
structure SyncCounts where
  total_events : Nat
  created : Nat
  updated : Nat
  skipped : Nat
deriving Repr, DecidableEq

/-- A calendar mutation attempted by `sync_lessons`: deleting the existing
event for an id, or saving (creating) the event for an id. -/
inductive CalAction where
  | delete (event_id : String)
  | save (event_id : String)
deriving Repr, DecidableEq

/-- Result of the embedded `sync_lessons`: the printed counters plus the
trace of calendar mutations attempted, in order. -/
structure SyncResult where
  counts : SyncCounts
  actions : List CalAction
deriving Repr, DecidableEq

/-- The per-lesson body of `sync_lessons`'s loop (lines 267–332):
drop malformed entries, compute the event id, skip / delete / create
according to `event_exists` and `overwrite`, and update the counters.
`save` is the calendar's `save_event` oracle, keyed by the event id. -/
def processLesson (group_name : String) (week : Nat) (existing_ids : List String)
    (overwrite : Bool) (save : String → SaveOutcome) (st : SyncResult)
    (lesson : RawLesson) : SyncResult :=
  let day_number := lesson.day_number
  let lesson_number := lesson.cours_nr
  if day_number = 0 ∨ lesson_number = 0 then st
  else
    let event_id := generate_event_id group_name week day_number lesson_number
      lesson.cours_name lesson.cours_type
    let event_exists := existing_ids.contains event_id
    if event_exists ∧ ¬ overwrite then
      { st with counts := { st.counts with skipped := st.counts.skipped + 1 } }
    else
      let st :=
        if event_exists ∧ overwrite then
          { st with actions := st.actions ++ [CalAction.delete event_id] }
        else st
      let st := { st with actions := st.actions ++ [CalAction.save event_id] }
      if createOrUpdateEventResult (save event_id) then
        let c := st.counts
        let counts :=
          if event_exists then
            { c with updated := c.updated + 1, total_events := c.total_events + 1 }
          else
            { c with created := c.created + 1, total_events := c.total_events + 1 }
        { st with counts := counts }
      else st

/-- `CalendarSync.sync_lessons` (lines 243–346) for an explicit week list:
`existing_events` is the calendar search result when `overwrite` is set and
the empty dictionary otherwise (line 250); each week's fetch failure skips
that week; each lesson is processed by `processLesson`. `calendar_ids` is
the set of event ids found by the calendar search over the synced window. -/
def syncLessons (group_name : String) (weeks : List Nat) (fetch : FetchOracle)
    (calendar_ids : List String) (overwrite : Bool)
    (save : String → SaveOutcome) : SyncResult :=
  let existing_ids := if overwrite then calendar_ids else []
  weeks.foldl
    (fun st week =>
      match fetch week with
      | .error _ => st
      | .ok rawWeek =>
        let entries := rawWeek.getD []
        entries.foldl (processLesson group_name week existing_ids overwrite save) st)
    ⟨⟨0, 0, 0, 0⟩, []⟩

/-- Replay a trace of calendar mutations against a calendar state (the set
of stored event ids): a delete removes the id, a successful save adds it
(saving an already present id leaves the store unchanged — the
`412 Precondition Failed` case). -/
def applyActions (cal : List String) (actions : List CalAction) : List String :=
  actions.foldl
    (fun cal a =>
      match a with
      | .delete event_id => cal.filter (· ≠ event_id)
      | .save event_id => if cal.contains event_id then cal else cal ++ [event_id])
    cal

/-! ## The `/sync` command flow (`src/telegram_bot.py` lines 171–206) -/

/-- `ScheduleBot.sync_command` after a successful connection: run
`sync_lessons` with `overwrite=True`, then fetch the current schedule again
and commit it with `update_snapshot` — unconditionally, whatever the
per-lesson outcomes of the sync were. `fetch_sync` and `fetch_snap` are the
two successive uses of the upstream fetch collaborator. -/
def syncCommand (snapshot : Snap) (group_name : String) (weeks : List Nat)
    (fetch_sync fetch_snap : FetchOracle) (calendar_ids : List String)
    (save : String → SaveOutcome) : Snap × SyncResult :=
  let result := syncLessons group_name weeks fetch_sync calendar_ids true save
  let current_schedule := fetchCurrentSchedule group_name weeks fetch_snap
  (updateSnapshot snapshot group_name weeks current_schedule, result)

/-! ## Monitor state (`ScheduleMonitor`'s in-memory snapshot and file) -/

/-- The observable state of a `ScheduleMonitor`: the in-memory snapshot
dictionary and the snapshot file's content (`none` if never written). -/
structure MonitorState where
  snapshot : Snap
  file : Option String
deriving Repr, DecidableEq

/-! ## Snapshot file serialisation (`json.dump(..., indent=2, ensure_ascii=False)`
and `json.load`, as used by `_save_snapshot` / `_load_snapshot`) -/

/-- JSON values as they occur in snapshot documents: strings, non-negative
integers, and objects. -/
inductive JVal where
  | str (s : String)
  | num (n : Nat)
  | obj (members : List (String × JVal))
deriving Repr

/-- Escaping of one character inside a JSON string, exactly as Python's
`json.dump` with `ensure_ascii=False` performs it: `"` and `\` get a
backslash, the five named control characters use their short escapes, the
remaining control characters use `\u00xx`, and everything else is emitted
verbatim. -/
def escapeChar (c : Char) : List Char :=
  if c = '"' then ['\\', '"']
  else if c = '\\' then ['\\', '\\']
  else if c.toNat = 10 then ['\\', 'n']
  else if c.toNat = 13 then ['\\', 'r']
  else if c.toNat = 9 then ['\\', 't']
  else if c.toNat = 8 then ['\\', 'b']
  else if c.toNat = 12 then ['\\', 'f']
  else if c.toNat < 32 then ['\\', 'u', '0', '0', hexCh (c.toNat / 16), hexCh (c.toNat % 16)]
  else [c]

/-- A rendered JSON string literal. -/
def renderString (s : String) : List Char :=
  '"' :: (s.data.map escapeChar).flatten ++ ['"']

/-- `indent=2`: the indentation prefix at nesting level `lvl`. -/
def indentChars (lvl : Nat) : List Char := List.replicate (2 * lvl) ' '

mutual

/-- Serialisation of a JSON value at nesting level `lvl`, following
`json.dump(..., indent=2, ensure_ascii=False)`: an empty object renders as
`{}`; a non-empty object puts each member on its own indented line, members
separated by `,`, keys and values separated by `: `. -/
def renderVal : JVal → Nat → List Char
  | .str s, _ => renderString s
  | .num n, _ => (natRepr n).data
  | .obj [], _ => ['{', '}']
  | .obj (m :: ms), lvl =>
    ['{', '\n'] ++ indentChars (lvl + 1) ++ renderMembers (m :: ms) (lvl + 1)
      ++ ['\n'] ++ indentChars lvl ++ ['}']

/-- The members of a non-empty object, each introduced by the indentation
already emitted by the caller. -/
def renderMembers : List (String × JVal) → Nat → List Char
  | [], _ => []
  | [(k, v)], lvl => renderString k ++ [':', ' '] ++ renderVal v lvl
  | (k, v) :: m :: ms, lvl =>
    renderString k ++ [':', ' '] ++ renderVal v lvl ++ [',', '\n']
      ++ indentChars lvl ++ renderMembers (m :: ms) lvl

end

/-- JSON whitespace. -/
def isWs (c : Char) : Bool := c = ' ' || c = '\n' || c = '\t' || c = '\r'

/-- Skip leading whitespace. -/
def skipWs (cs : List Char) : List Char := cs.dropWhile isWs

/-- ASCII decimal digit test. -/
def isDigitCh (c : Char) : Bool := 48 ≤ c.toNat && c.toNat ≤ 57

/-- Value of one hexadecimal character. -/
def hexV (c : Char) : Option Nat :=
  if 48 ≤ c.toNat ∧ c.toNat ≤ 57 then some (c.toNat - 48)
  else if 97 ≤ c.toNat ∧ c.toNat ≤ 102 then some (c.toNat - 87)
  else if 65 ≤ c.toNat ∧ c.toNat ≤ 70 then some (c.toNat - 55)
  else none

/-- Parse the body of a JSON string literal (the opening quote already
consumed), undoing `escapeChar`; returns the decoded characters and the
input after the closing quote. -/
def parseStrChars : List Char → Option (List Char × List Char)
  | [] => none
  | c :: tl =>
    if c = '"' then some ([], tl)
    else if c = '\\' then
      match tl with
      | [] => none
      | e :: tl2 =>
        if e = 'u' then
          match tl2 with
          | h1 :: h2 :: h3 :: h4 :: tl3 =>
            match hexV h1, hexV h2, hexV h3, hexV h4 with
            | some a, some b, some c2, some d =>
              (parseStrChars tl3).map
                (fun p => (Char.ofNat (((a * 16 + b) * 16 + c2) * 16 + d) :: p.1, p.2))
            | _, _, _, _ => none
          | _ => none
        else
          let dec : Option Char :=
            if e = '"' then some '"'
            else if e = '\\' then some '\\'
            else if e = '/' then some '/'
            else if e = 'n' then some (Char.ofNat 10)
            else if e = 'r' then some (Char.ofNat 13)
            else if e = 't' then some (Char.ofNat 9)
            else if e = 'b' then some (Char.ofNat 8)
            else if e = 'f' then some (Char.ofNat 12)
            else none
          match dec with
          | none => none
          | some d => (parseStrChars tl2).map (fun p => (d :: p.1, p.2))
    else (parseStrChars tl).map (fun p => (c :: p.1, p.2))

/-- Parse a non-empty run of decimal digits. -/
def parseNum (cs : List Char) : Option (Nat × List Char) :=
  let ds := cs.takeWhile isDigitCh
  if ds.isEmpty then none
  else some (ds.foldl (fun a c => a * 10 + (c.toNat - 48)) 0, cs.dropWhile isDigitCh)

mutual

/-- Fuelled parser for a JSON value (strings, naturals, objects),
whitespace-tolerant as `json.load` is. -/
def parseVal : Nat → List Char → Option (JVal × List Char)
  | 0, _ => none
  | fuel + 1, cs =>
    match skipWs cs with
    | [] => none
    | c :: tl =>
      if c = '"' then (parseStrChars tl).map (fun p => (JVal.str (String.mk p.1), p.2))
      else if c = '{' then
        match skipWs tl with
        | [] => none
        | c2 :: r2 =>
          if c2 = '}' then some (JVal.obj [], r2)
          else (parseMembers fuel (c2 :: r2)).map (fun p => (JVal.obj p.1, p.2))
      else if isDigitCh c then
        (parseNum (c :: tl)).map (fun p => (JVal.num p.1, p.2))
      else none

/-- Fuelled parser for the members of a non-empty object, positioned at the
opening quote of the next key. -/
def parseMembers : Nat → List Char → Option (List (String × JVal) × List Char)
  | 0, _ => none
  | fuel + 1, cs =>
    match cs with
    | [] => none
    | c :: tl =>
      if c = '"' then
        match parseStrChars tl with
        | none => none
        | some (k, r1) =>
          match skipWs r1 with
          | [] => none
          | c2 :: r2 =>
            if c2 = ':' then
              match parseVal fuel (skipWs r2) with
              | none => none
              | some (v, r3) =>
                match skipWs r3 with
                | [] => none
                | c3 :: r4 =>
                  if c3 = ',' then
                    (parseMembers fuel (skipWs r4)).map
                      (fun p => ((String.mk k, v) :: p.1, p.2))
                  else if c3 = '}' then some ([(String.mk k, v)], r4)
                  else none
            else none
      else none

end

/-- Map a fallible decoder over a list, failing if any element fails
(the shape of `json.load`'s construction of nested objects). -/
def omap {α β : Type} (f : α → Option β) : List α → Option (List β)
  | [] => some []
  | a :: tl =>
    match f a with
    | none => none
    | some b => (omap f tl).map (fun l => b :: l)

/-- String member of a decoded JSON object. -/
def getStr (ms : List (String × JVal)) (k : String) : Option String :=
  match alookup ms k with
  | some (JVal.str s) => some s
  | _ => none

/-- Numeric member of a decoded JSON object. -/
def getNum (ms : List (String × JVal)) (k : String) : Option Nat :=
  match alookup ms k with
  | some (JVal.num n) => some n
  | _ => none

/-- Decode a lesson object (the seven fields written by
`_normalize_lesson`), by key lookup as the Python readers access them. -/
def decodeLesson : JVal → Option NormLesson
  | JVal.obj ms => do
    let e ← getStr ms "event_id"
    let d ← getNum ms "day_number"
    let n ← getNum ms "lesson_number"
    let cn ← getStr ms "cours_name"
    let ct ← getStr ms "cours_type"
    let co ← getStr ms "cours_office"
    let tn ← getStr ms "teacher_name"
    pure ⟨e, d, n, cn, ct, co, tn⟩
  | _ => none

/-- Decode a week slice: identity → lesson. -/
def decodeWeek : JVal → Option WeekMap
  | JVal.obj ms => omap (fun p => (decodeLesson p.2).map (fun l => (p.1, l))) ms
  | _ => none

/-- Decode a group's schedule: week key → week slice. -/
def decodeSched : JVal → Option Sched
  | JVal.obj ms => omap (fun p => (decodeWeek p.2).map (fun w => (p.1, w))) ms
  | _ => none

/-- Decode a snapshot document: group → schedule. -/
def decodeSnap : JVal → Option Snap
  | JVal.obj ms => omap (fun p => (decodeSched p.2).map (fun s => (p.1, s))) ms
  | _ => none

/-- A normalised lesson as a JSON object, in `_normalize_lesson`'s
insertion order. -/
def encodeLesson (l : NormLesson) : JVal :=
  JVal.obj [("event_id", JVal.str l.event_id),
    ("day_number", JVal.num l.day_number),
    ("lesson_number", JVal.num l.lesson_number),
    ("cours_name", JVal.str l.cours_name),
    ("cours_type", JVal.str l.cours_type),
    ("cours_office", JVal.str l.cours_office),
    ("teacher_name", JVal.str l.teacher_name)]

/-- A week slice as a JSON object. -/
def encodeWeek (wm : WeekMap) : JVal :=
  JVal.obj (wm.map (fun p => (p.1, encodeLesson p.2)))

/-- A group schedule as a JSON object. -/
def encodeSched (s : Sched) : JVal :=
  JVal.obj (s.map (fun p => (p.1, encodeWeek p.2)))

/-- A snapshot as a JSON document. -/
def encodeSnap (s : Snap) : JVal :=
  JVal.obj (s.map (fun p => (p.1, encodeSched p.2)))

/-- `ScheduleMonitor._save_snapshot` (lines 46–52): the exact file content
written for a snapshot, `json.dump(self.snapshot, f, indent=2,
ensure_ascii=False)`. -/
def saveSnapshotStr (s : Snap) : String :=
  String.mk (renderVal (encodeSnap s) 0)

/-- `ScheduleMonitor._load_snapshot` (lines 34–44) applied to an existing
file's content: `json.load` it and take the resulting mapping; `none`
models the exception path (which the source turns into `{}`). -/
def loadSnapshotStr (content : String) : Option Snap :=
  match parseVal (content.data.length + 1) content.data with
  | some (v, rest) => if (skipWs rest).isEmpty then decodeSnap v else none
  | none => none

mutual

/-- Size measure of a JSON value, used to supply parser fuel. -/
def jsize : JVal → Nat
  | .str _ => 1
  | .num _ => 1
  | .obj ms => 1 + msize ms

/-- Size measure of an object's member list. -/
def msize : List (String × JVal) → Nat
  | [] => 1
  | (_, v) :: tl => 1 + jsize v + msize tl

end

/-! ## Monitor operations on the observable state -/

/-- `ScheduleMonitor.detect_changes` as an operation on the monitor state:
it computes the change list (refetching first when no current schedule is
supplied) and the state is returned as the source leaves it — the method
only reads `self.snapshot` and calls no writer. -/
def detectChangesOp (st : MonitorState) (group_name : String)
    (weeks : List Nat) (current_schedule : Option Sched) (fetch : FetchOracle) :
    List SChange × MonitorState :=
  let current :=
    match current_schedule with
    | none => fetchCurrentSchedule group_name weeks fetch
    | some cs => cs
  (detectChangesList st.snapshot group_name weeks current, st)

/-- `ScheduleMonitor.update_snapshot` as an operation on the monitor state:
replace the slices and write the file via `_save_snapshot`. -/
def updateSnapshotOp (st : MonitorState) (group_name : String)
    (weeks : List Nat) (schedule : Sched) : MonitorState :=
  let snap := updateSnapshot st.snapshot group_name weeks schedule
  ⟨snap, some (saveSnapshotStr snap)⟩

/-! ## Helpers for stating the diff-completeness and identity claims -/

/-- The event ids of the changes of one type in a diff output. -/
def changeIdsOfType (cs : List SChange) (t : String) : List String :=
  cs.filterMap (fun c => if c.type = t then c.event_id else none)

/-- The identities present in both slices with all compared fields equal
(the pairs for which `detect_changes` emits nothing). -/
def unchangedIds (saved_week current_week : WeekMap) : List String :=
  (current_week.filter (fun p =>
    match alookup saved_week p.1 with
    | none => false
    | some sl => lessonFieldsEq p.2 sl)).map (·.1)

/-- Exactly one of four alternatives holds. -/
def ExactlyOneOfFour (p q r s : Prop) : Prop :=
  (p ∧ ¬ q ∧ ¬ r ∧ ¬ s) ∨ (¬ p ∧ q ∧ ¬ r ∧ ¬ s)
    ∨ (¬ p ∧ ¬ q ∧ r ∧ ¬ s) ∨ (¬ p ∧ ¬ q ∧ ¬ r ∧ s)

/-- Value of one of the sixteen lowercase hex digits (`0` otherwise). -/
def hexValN (c : Char) : Nat :=
  match c with
  | '1' => 1
  | '2' => 2
  | '3' => 3
  | '4' => 4
  | '5' => 5
  | '6' => 6
  | '7' => 7
  | '8' => 8
  | '9' => 9
  | 'a' => 10
  | 'b' => 11
  | 'c' => 12
  | 'd' => 13
  | 'e' => 14
  | 'f' => 15
  | _ => 0

/-- Encode a hex string as the natural number with those base-16 digits
(little-endian over the character list). -/
def hexStrCode (s : String) : Nat := Nat.ofDigits 16 (s.data.map hexValN)

/-- The string `get_lesson_id` feeds to MD5: the f-string concatenation
`f"{group_name}{week}{lesson_day}{lesson_nr}{lesson_name}{lesson_type}{teacher}"`. -/
def lessonHashInput (group_name : String) (week lesson_day lesson_nr : Nat)
    (lesson_name lesson_type teacher : String) : String :=
  group_name ++ natRepr week ++ natRepr lesson_day ++ natRepr lesson_nr
    ++ lesson_name ++ lesson_type ++ teacher

/-! # Lemmas and claim theorems -/

/-! ## Decimal representation -/

theorem natDigitsAux_eq_digits (fuel : Nat) :
    ∀ n : Nat, n ≤ fuel → natDigitsAux fuel n = Nat.digits 10 n := by
  induction fuel with
  | zero =>
    intro n hn
    interval_cases n
    simp [natDigitsAux]
  | succ fuel ih =>
    intro n hn
    cases n with
    | zero => simp [natDigitsAux]
    | succ n =>
      rw [show natDigitsAux (fuel + 1) (n + 1)
          = (n + 1) % 10 :: natDigitsAux fuel ((n + 1) / 10) from rfl]
      have hdiv : (n + 1) / 10 ≤ fuel := by
        have h1 : (n + 1) / 10 < n + 1 := Nat.div_lt_self (Nat.succ_pos n) (by norm_num)
        omega
      rw [ih ((n + 1) / 10) hdiv]
      rw [Nat.digits_def' (by norm_num) (Nat.succ_pos n)]

theorem natDigits_eq_digits (n : Nat) : natDigits n = Nat.digits 10 n :=
  natDigitsAux_eq_digits n n le_rfl

theorem digitCh_inj {a b : Nat} (ha : a < 10) (hb : b < 10)
    (h : digitCh a = digitCh b) : a = b := by
  interval_cases a <;> interval_cases b <;> first | rfl | exact absurd h (by decide)

theorem map_digitCh_inj : ∀ {l₁ l₂ : List Nat}, (∀ x ∈ l₁, x < 10) →
    (∀ x ∈ l₂, x < 10) → l₁.map digitCh = l₂.map digitCh → l₁ = l₂ := by
  intro l₁
  induction l₁ with
  | nil =>
    intro l₂ _ _ h
    cases l₂ with
    | nil => rfl
    | cons b tl => simp at h
  | cons a tl ih =>
    intro l₂ h₁ h₂ h
    cases l₂ with
    | nil => simp at h
    | cons b tl₂ =>
      simp only [List.map_cons, List.cons.injEq] at h
      have ha : a = b := digitCh_inj (h₁ a (by simp)) (h₂ b (by simp)) h.1
      have := ih (fun x hx => h₁ x (by simp [hx])) (fun x hx => h₂ x (by simp [hx])) h.2
      rw [ha, this]

theorem natRepr_inj : ∀ {m n : Nat}, natRepr m = natRepr n → m = n := by
  intro m n h
  unfold natRepr at h
  by_cases hm : m = 0 <;> by_cases hn : n = 0
  · omega
  · exfalso
    simp only [hm, if_pos rfl, if_neg hn, natDigits_eq_digits] at h
    have hd : ((Nat.digits 10 n).reverse.map digitCh) = ['0'] := by
      have := congrArg String.data h
      simpa using this.symm
    rcases hrev : (Nat.digits 10 n).reverse with _ | ⟨d, tl⟩
    · rw [hrev] at hd; simp at hd
    · rw [hrev] at hd
      rcases tl with _ | ⟨d₂, tl₂⟩
      · simp only [List.map_cons, List.map_nil, List.cons.injEq] at hd
        have hdn : Nat.digits 10 n = [d] := by
          have := congrArg List.reverse hrev
          simpa using this
        have hd10 : d < 10 := Nat.digits_lt_base (by norm_num) (by rw [hdn]; simp)
        have hd0 : d = 0 := (digitCh_inj hd10 (by norm_num) (by
          rw [show digitCh 0 = '0' from rfl]; exact hd.1)).symm.symm
        have hn' : n = Nat.ofDigits 10 (Nat.digits 10 n) := (Nat.ofDigits_digits 10 n).symm
        rw [hdn, hd0] at hn'
        simp [Nat.ofDigits] at hn'
        exact hn hn'
      · simp at hd
  · exfalso
    simp only [hn, if_pos rfl, if_neg hm, natDigits_eq_digits] at h
    have hd : ((Nat.digits 10 m).reverse.map digitCh) = ['0'] := by
      have := congrArg String.data h
      simpa using this
    rcases hrev : (Nat.digits 10 m).reverse with _ | ⟨d, tl⟩
    · rw [hrev] at hd; simp at hd
    · rw [hrev] at hd
      rcases tl with _ | ⟨d₂, tl₂⟩
      · simp only [List.map_cons, List.map_nil, List.cons.injEq] at hd
        have hdm : Nat.digits 10 m = [d] := by
          have := congrArg List.reverse hrev
          simpa using this
        have hd10 : d < 10 := Nat.digits_lt_base (by norm_num) (by rw [hdm]; simp)
        have hd0 : d = 0 := digitCh_inj hd10 (by norm_num) (by
          rw [show digitCh 0 = '0' from rfl]; exact hd.1)
        have hm' : m = Nat.ofDigits 10 (Nat.digits 10 m) := (Nat.ofDigits_digits 10 m).symm
        rw [hdm, hd0] at hm'
        simp [Nat.ofDigits] at hm'
        exact hm hm'
      · simp at hd
  · simp only [if_neg hm, if_neg hn, natDigits_eq_digits] at h
    have hd := congrArg String.data h
    simp only [String.data] at hd
    have hrev := map_digitCh_inj
      (fun x hx => Nat.digits_lt_base (by norm_num) (List.mem_reverse.mp hx))
      (fun x hx => Nat.digits_lt_base (by norm_num) (List.mem_reverse.mp hx))
      (by simpa using hd)
    have hdig : Nat.digits 10 m = Nat.digits 10 n :=
      List.reverse_injective hrev
    have := congrArg (Nat.ofDigits 10) hdig
    simpa [Nat.ofDigits_digits] using this

/-! ## Association list lemmas -/

theorem alookup_dinsert_self {α : Type} (m : List (String × α)) (k : String) (v : α) :
    alookup (dinsert m k v) k = some v := by
  induction m with
  | nil => simp [dinsert, alookup]
  | cons p tl ih =>
    rcases p with ⟨k', v'⟩
    by_cases h : k' = k
    · simp [dinsert, alookup, h]
    · simp [dinsert, alookup, h, ih]

theorem alookup_dinsert_ne {α : Type} (m : List (String × α)) (k k' : String)
    (v : α) (h : k ≠ k') : alookup (dinsert m k v) k' = alookup m k' := by
  induction m with
  | nil => simp [dinsert, alookup, h]
  | cons p tl ih =>
    rcases p with ⟨k₀, v₀⟩
    by_cases h₀ : k₀ = k
    · subst h₀
      simp [dinsert, alookup, h]
    · simp only [dinsert, if_neg h₀]
      by_cases h₁ : k₀ = k'
      · simp [alookup, h₁]
      · simp [alookup, h₁, ih]

theorem alookup_append_none {α : Type} (m₁ m₂ : List (String × α)) (k : String)
    (h : alookup m₁ k = none) : alookup (m₁ ++ m₂) k = alookup m₂ k := by
  induction m₁ with
  | nil => simp
  | cons p tl ih =>
    rcases p with ⟨k', v⟩
    by_cases hk : k' = k
    · simp [alookup, hk] at h
    · simp only [alookup, if_neg hk] at h
      simpa [alookup, hk] using ih h

theorem alookup_eq_some_mem {α : Type} {m : List (String × α)} {k : String} {v : α}
    (h : alookup m k = some v) : (k, v) ∈ m := by
  induction m with
  | nil => simp [alookup] at h
  | cons p tl ih =>
    rcases p with ⟨k', v'⟩
    by_cases hk : k' = k
    · subst hk
      simp only [alookup, if_pos rfl, Option.some.injEq] at h
      simp [alookup] at h
      subst h
      exact List.mem_cons_self _ _
    · simp only [alookup, if_neg hk] at h
      simp [ih h]

theorem mem_alookup_nodup {α : Type} {m : List (String × α)} {k : String} {v : α}
    (hnd : (keysOf m).Nodup) (h : (k, v) ∈ m) : alookup m k = some v := by
  induction m with
  | nil => simp at h
  | cons p tl ih =>
    rcases p with ⟨k', v'⟩
    simp only [keysOf, List.map_cons, List.nodup_cons] at hnd
    rcases List.mem_cons.mp h with h₁ | h₁
    · injection h₁ with hk hv
      subst hk
      subst hv
      simp [alookup]
    · have hne : k' ≠ k := by
        intro he
        exact hnd.1 (he ▸ (by simpa [keysOf] using List.mem_map_of_mem Prod.fst h₁))
      simp only [alookup, if_neg hne]
      exact ih (by simpa [keysOf] using hnd.2) h₁

theorem alookup_isSome_iff_mem_keys {α : Type} (m : List (String × α)) (k : String) :
    (alookup m k).isSome = true ↔ k ∈ keysOf m := by
  induction m with
  | nil => simp [alookup, keysOf]
  | cons p tl ih =>
    rcases p with ⟨k', v'⟩
    by_cases hk : k' = k
    · simp [alookup, hk, keysOf]
    · simp [alookup, hk, keysOf, ih, Ne.symm hk]
    
/-! ## Substring containment (Python `in`) -/

theorem strContains_correct (needle hay : List Char) :
    strContains hay needle = true ↔ needle <:+: hay := by
  induction hay with
  | nil =>
    simp [strContains, List.isEmpty_iff]
  | cons c tl ih =>
    rw [show strContains (c :: tl) needle
        = (needle.isPrefixOf (c :: tl) || strContains tl needle) from rfl]
    rw [Bool.or_eq_true, ih, List.isPrefixOf_iff_prefix]
    constructor
    · rintro (h | h)
      · exact h.isInfix
      · exact h.trans (List.suffix_cons c tl).isInfix
    · intro h
      rcases h with ⟨s, t, hst⟩
      cases s with
      | nil => exact Or.inl ⟨t, by simpa using hst⟩
      | cons s₀ s' =>
        refine Or.inr ⟨s', t, ?_⟩
        simpa using congrArg List.tail hst

/-! ## Claim C8 — 412 Precondition Failed is treated as success -/

/-- C8: when the calendar collaborator's save raises a conflict /
already-exists response (its message contains `412 Precondition Failed`),
`create_or_update_event` treats the operation as a success, not as an
error. -/
theorem c8_conflict_is_success (msg : String)
    (h : "412 Precondition Failed".data <:+: msg.data) :
    createOrUpdateEventResult (SaveOutcome.raise msg) = true := by
  unfold createOrUpdateEventResult
  exact (strContains_correct _ _).mpr h

/-- Witness for C8 at a concrete exception message. -/
theorem c8_conflict_is_success_witness :
    createOrUpdateEventResult
      (SaveOutcome.raise "HTTPError: 412 Precondition Failed for url") = true :=
  c8_conflict_is_success "HTTPError: 412 Precondition Failed for url"
    ⟨"HTTPError: ".data, " for url".data, by decide⟩

/-! ## Claim C10 — `detect_changes` is read-only -/

/-- C10: detecting changes is read-only with respect to persisted state:
for every monitor state and every input, `detect_changes` returns the
monitor state (in-memory snapshot and snapshot file) exactly as it found
it; only `update_snapshot` produces a state with a newly written file. -/
theorem c10_detect_changes_readonly (st : MonitorState) (group_name : String)
    (weeks : List Nat) (current_schedule : Option Sched) (fetch : FetchOracle) :
    (detectChangesOp st group_name weeks current_schedule fetch).2 = st := rfl

/-! ## Claim C1 — skip on existing identity with overwrite disabled -/

/-- C1: the claim says that with overwrite disabled a lesson whose identity
already has a calendar event is skipped (counted as skipped, no calendar
mutation). The code at `src/main.py` line 250 sets `existing_events = {}`
whenever `overwrite` is false, so `event_exists` is never true in that
mode: at this concrete input (one lesson whose event is present in the
calendar, overwrite disabled, the calendar answering the save with
`412 Precondition Failed`), the run skips nothing, attempts one save
mutation for that lesson and counts it as created instead. -/
theorem c1_overwrite_disabled_divergence :
    (syncLessons "IT11Z" [1] (fun _ => .ok (some [⟨1, 1, "Math", "Lecture", "224", "T."⟩]))
        [generate_event_id "IT11Z" 1 1 1 "Math" "Lecture"] false
        (fun _ => .raise "412 Precondition Failed")).counts.skipped = 0
    ∧ (syncLessons "IT11Z" [1] (fun _ => .ok (some [⟨1, 1, "Math", "Lecture", "224", "T."⟩]))
        [generate_event_id "IT11Z" 1 1 1 "Math" "Lecture"] false
        (fun _ => .raise "412 Precondition Failed")).counts.created = 1
    ∧ (syncLessons "IT11Z" [1] (fun _ => .ok (some [⟨1, 1, "Math", "Lecture", "224", "T."⟩]))
        [generate_event_id "IT11Z" 1 1 1 "Math" "Lecture"] false
        (fun _ => .raise "412 Precondition Failed")).actions.length = 1 :=
  ⟨rfl, rfl, rfl⟩

/-! ## Claim C3 — a fetch failure and the stored snapshot slice -/

/-- C3: the claim says a fetch failure leaves the previously stored
snapshot slice untouched and never deletes snapshot entries. In the code,
`fetch_current_schedule` does skip the failed week (first conjunct: the
fetched mapping is empty), and `sync_lessons` attempts no calendar mutation
for it (second conjunct); but `update_snapshot` then assigns
`schedule.get(week_key, {})` for every requested week, so the stored slice
for the failed week is overwritten with the empty mapping (third conjunct)
instead of being left as it was (fourth conjunct). -/
theorem c3_fetch_failure_wipes_slice :
    fetchCurrentSchedule "IT11Z" [5] (fun _ => .error "ValueError") = []
    ∧ (syncLessons "IT11Z" [5] (fun _ => .error "ValueError") [] true
        (fun _ => .ok)).actions = []
    ∧ snapSlice
        (updateSnapshotAuto [("IT11Z", [("5", [("id0", ⟨"id0", 1, 2, "Math", "L", "224", "T."⟩)])])]
          "IT11Z" [5] (fun _ => .error "ValueError")) "IT11Z" "5" = some []
    ∧ snapSlice [("IT11Z", [("5", [("id0", ⟨"id0", 1, 2, "Math", "L", "224", "T."⟩)])])]
        "IT11Z" "5" = some [("id0", ⟨"id0", 1, 2, "Math", "L", "224", "T."⟩)] :=
  ⟨rfl, rfl, rfl, rfl⟩

/-! ## Claim C4 — reconciliation is not idempotent in the code -/

/-- C4: the claim says a second reconciliation run over identical fetch
results with no external change produces zero creates and zero deletes,
every lesson being skipped. At this concrete input the first run (empty
calendar, overwrite disabled, save succeeding) creates the lesson's event;
replaying its actions leaves exactly that event in the calendar; the second
identical run — the calendar now answering the repeated save with
`412 Precondition Failed` — again counts one create and zero skips (and
zero deletes), because line 250 of `src/main.py` discards the calendar
contents when overwrite is disabled (and with overwrite enabled the code
deletes and re-creates every event instead of skipping). -/
theorem c4_second_run_not_idempotent :
    (applyActions []
      (syncLessons "IT11Z" [1] (fun _ => .ok (some [⟨1, 1, "Math", "Lecture", "224", "T."⟩]))
        [] false (fun _ => .ok)).actions).length = 1
    ∧ (syncLessons "IT11Z" [1] (fun _ => .ok (some [⟨1, 1, "Math", "Lecture", "224", "T."⟩]))
        (applyActions []
          (syncLessons "IT11Z" [1]
            (fun _ => .ok (some [⟨1, 1, "Math", "Lecture", "224", "T."⟩]))
            [] false (fun _ => .ok)).actions)
        false (fun _ => .raise "412 Precondition Failed")).counts.created = 1
    ∧ (syncLessons "IT11Z" [1] (fun _ => .ok (some [⟨1, 1, "Math", "Lecture", "224", "T."⟩]))
        (applyActions []
          (syncLessons "IT11Z" [1]
            (fun _ => .ok (some [⟨1, 1, "Math", "Lecture", "224", "T."⟩]))
            [] false (fun _ => .ok)).actions)
        false (fun _ => .raise "412 Precondition Failed")).counts.skipped = 0
    ∧ ((syncLessons "IT11Z" [1] (fun _ => .ok (some [⟨1, 1, "Math", "Lecture", "224", "T."⟩]))
        (applyActions []
          (syncLessons "IT11Z" [1]
            (fun _ => .ok (some [⟨1, 1, "Math", "Lecture", "224", "T."⟩]))
            [] false (fun _ => .ok)).actions)
        false (fun _ => .raise "412 Precondition Failed")).actions.filter
          (fun a => match a with | .delete _ => true | .save _ => false)) = [] :=
  ⟨rfl, rfl, rfl, rfl⟩

/-! ## Claim C7 — zero day/lesson numbers and normalisation -/

/-- C7: the claim says entries with a zero day number or lesson number are
dropped silently and never appear in the identity-keyed mapping of the
week. The reconciliation loop of `sync_lessons` does drop them (third and
fourth conjuncts: no event, no calendar mutation), but
`fetch_current_schedule` — the function that produces the identity-keyed
mapping — applies no such filter: the zero-day entry is normalised and
inserted (first and second conjuncts). -/
theorem c7_zero_day_kept_in_mapping :
    ((alookup (fetchCurrentSchedule "IT11Z" [5] (fun _ => .ok (some [⟨0, 3, "Math", "L", "224", "T."⟩])))
        "5").getD []).length = 1
    ∧ ((alookup (fetchCurrentSchedule "IT11Z" [5] (fun _ => .ok (some [⟨0, 3, "Math", "L", "224", "T."⟩])))
        "5").getD []).map (fun p => p.2.day_number) = [0]
    ∧ (syncLessons "IT11Z" [5] (fun _ => .ok (some [⟨0, 3, "Math", "L", "224", "T."⟩]))
        [] true (fun _ => .ok)).counts.total_events = 0
    ∧ (syncLessons "IT11Z" [5] (fun _ => .ok (some [⟨0, 3, "Math", "L", "224", "T."⟩]))
        [] true (fun _ => .ok)).actions = [] :=
  ⟨rfl, rfl, rfl, rfl⟩

/-! ## Claim C2 — snapshot commit vs. per-lesson failures -/

/-- C2 counterexample: the claim says a (group, week) slice is committed
only after every lesson of the week reconciled and that a week with a
failed lesson keeps its stored slice unchanged. At this concrete input the
single lesson of week 5 fails (the calendar save raises a non-412 error,
so nothing is created, updated or skipped — first conjunct), yet the
`/sync` flow still commits the freshly fetched slice for week 5 (second
conjunct), replacing the previously stored one (third conjunct). -/
theorem c2_failed_lesson_still_committed :
    (syncCommand [("IT11Z", [("5", [("id0", ⟨"id0", 1, 2, "Old", "L", "100", "S."⟩)])])]
        "IT11Z" [5] (fun _ => .ok (some [⟨1, 2, "Math", "L", "224", "T."⟩]))
        (fun _ => .ok (some [⟨1, 2, "Math", "L", "224", "T."⟩])) []
        (fun _ => .raise "boom")).2.counts = ⟨0, 0, 0, 0⟩
    ∧ ((snapSlice (syncCommand [("IT11Z", [("5", [("id0", ⟨"id0", 1, 2, "Old", "L", "100", "S."⟩)])])]
        "IT11Z" [5] (fun _ => .ok (some [⟨1, 2, "Math", "L", "224", "T."⟩]))
        (fun _ => .ok (some [⟨1, 2, "Math", "L", "224", "T."⟩])) []
        (fun _ => .raise "boom")).1 "IT11Z" "5").getD []).map (fun p => p.2.cours_name) = ["Math"]
    ∧ ((snapSlice [("IT11Z", [("5", [("id0", ⟨"id0", 1, 2, "Old", "L", "100", "S."⟩)])])]
        "IT11Z" "5").getD []).map (fun p => p.2.cours_name) = ["Old"] :=
  ⟨rfl, rfl, rfl⟩

theorem foldl_dinsert_group {α : Type} (g : String) (val : Nat → α) :
    ∀ (ws : List Nat) (sn : List (String × List (String × α))) (gm : List (String × α)),
      alookup sn g = some gm →
      alookup (ws.foldl (fun sn w =>
          dinsert sn g (dinsert ((alookup sn g).getD []) (natRepr w) (val w))) sn) g
        = some (ws.foldl (fun gm w => dinsert gm (natRepr w) (val w)) gm) := by
  intro ws
  induction ws with
  | nil => intro sn gm h; simpa using h
  | cons w ws ih =>
    intro sn gm h
    simp only [List.foldl_cons]
    apply ih
    rw [h]
    simp only [Option.getD_some]
    exact alookup_dinsert_self ..

theorem foldl_dinsert_lookup_notmem {α : Type} (val : Nat → α) (k : String) :
    ∀ (ws : List Nat) (gm : List (String × α)),
      (∀ w ∈ ws, natRepr w ≠ k) →
      alookup (ws.foldl (fun gm w => dinsert gm (natRepr w) (val w)) gm) k
        = alookup gm k := by
  intro ws
  induction ws with
  | nil => intro gm _; rfl
  | cons w ws ih =>
    intro gm h
    simp only [List.foldl_cons]
    rw [ih _ (fun w' hw' => h w' (by simp [hw']))]
    exact alookup_dinsert_ne _ _ _ _ (h w (by simp))

theorem foldl_dinsert_lookup_mem {α : Type} (val : Nat → α) :
    ∀ (ws : List Nat) (gm : List (String × α)) (w : Nat), w ∈ ws →
      alookup (ws.foldl (fun gm w' => dinsert gm (natRepr w') (val w')) gm) (natRepr w)
        = some (val w) := by
  intro ws
  induction ws with
  | nil => intro gm w h; simp at h
  | cons a ws ih =>
    intro gm w h
    simp only [List.foldl_cons]
    by_cases hw : w ∈ ws
    · exact ih _ _ hw
    · have hwa : w = a := by
        rcases List.mem_cons.mp h with h₁ | h₁
        · exact h₁
        · exact absurd h₁ hw
      subst hwa
      rw [foldl_dinsert_lookup_notmem val (natRepr w) ws _
        (fun w' hw' he => hw (natRepr_inj he ▸ hw'))]
      exact alookup_dinsert_self ..

theorem updateSnapshot_slice (snapshot : Snap) (g : String) (weeks : List Nat)
    (sched : Sched) (w : Nat) (hw : w ∈ weeks) :
    snapSlice (updateSnapshot snapshot g weeks sched) g (natRepr w)
      = some ((alookup sched (natRepr w)).getD []) := by
  have hbase : ∃ gm, alookup (if (alookup snapshot g).isSome then snapshot
      else snapshot ++ [(g, [])]) g = some gm := by
    rcases hgm : alookup snapshot g with _ | gm
    · refine ⟨[], ?_⟩
      rw [if_neg (by simp [hgm])]
      rw [alookup_append_none _ _ _ hgm]
      simp [alookup]
    · exact ⟨gm, by rw [if_pos (by simp [hgm])]; exact hgm⟩
  obtain ⟨gm, hgm⟩ := hbase
  simp only [updateSnapshot, snapSlice]
  rw [foldl_dinsert_group g (fun week => (alookup sched (natRepr week)).getD [])
    weeks _ gm hgm]
  simp only [Option.some_bind]
  exact foldl_dinsert_lookup_mem _ weeks gm w hw

/-- C2 amended: the `/sync` flow commits the freshly fetched slice for
every requested week regardless of the per-lesson outcomes of the
reconciliation run: after `sync_command`, the stored slice for each
monitored week equals the slice of the second fetch (the empty mapping if
that fetch failed for the week), whatever the calendar answered during
`sync_lessons`. -/
theorem c2_commit_regardless_of_failures (snapshot : Snap) (group_name : String)
    (weeks : List Nat) (fetch_sync fetch_snap : FetchOracle)
    (calendar_ids : List String) (save : String → SaveOutcome) (w : Nat)
    (hw : w ∈ weeks) :
    snapSlice (syncCommand snapshot group_name weeks fetch_sync fetch_snap
        calendar_ids save).1 group_name (natRepr w)
      = some ((alookup (fetchCurrentSchedule group_name weeks fetch_snap)
          (natRepr w)).getD []) :=
  updateSnapshot_slice snapshot group_name weeks
    (fetchCurrentSchedule group_name weeks fetch_snap) w hw

/-- Witness for C2's amended theorem: one monitored week whose only lesson
fails to save; the committed slice for that week is still the freshly
fetched one. -/
theorem c2_commit_regardless_of_failures_witness :
    snapSlice (syncCommand [("IT11Z", [("5", [("id0", ⟨"id0", 1, 2, "Old", "L", "100", "S."⟩)])])]
        "IT11Z" [5] (fun _ => .ok (some [⟨1, 2, "Math", "L", "224", "T."⟩]))
        (fun _ => .ok (some [⟨1, 2, "Math", "L", "224", "T."⟩])) []
        (fun _ => .raise "boom")).1 "IT11Z" (natRepr 5)
      = some ((alookup (fetchCurrentSchedule "IT11Z" [5]
          (fun _ => .ok (some [⟨1, 2, "Math", "L", "224", "T."⟩]))) (natRepr 5)).getD []) :=
  c2_commit_regardless_of_failures
    [("IT11Z", [("5", [("id0", ⟨"id0", 1, 2, "Old", "L", "100", "S."⟩)])])]
    "IT11Z" [5] (fun _ => .ok (some [⟨1, 2, "Math", "L", "224", "T."⟩]))
    (fun _ => .ok (some [⟨1, 2, "Math", "L", "224", "T."⟩])) []
    (fun _ => .raise "boom") 5 (by decide)

/-! ## Claim C5 — diff completeness -/

theorem filterMap_none_eq_nil {α β : Type} (l : List α) :
    (l.filterMap (fun _ => (none : Option β))) = [] := by
  induction l with
  | nil => rfl
  | cons a tl ih => simp [List.filterMap_cons, ih]

theorem filterMap_eq_map_filter_of {α β : Type} (f : α → Option β) (g : α → Bool)
    (h : α → β) (H : ∀ a, f a = if g a then some (h a) else none) :
    ∀ l : List α, l.filterMap f = (l.filter g).map h := by
  intro l
  induction l with
  | nil => rfl
  | cons a tl ih =>
    by_cases hg : g a
    · simp [List.filterMap_cons, List.filter_cons, H a, hg, ih]
    · simp [List.filterMap_cons, List.filter_cons, H a, hg, ih]

theorem length_filter_partition {α : Type} (p : α → Bool) (l : List α) :
    (l.filter p).length + (l.filter (fun a => ! p a)).length = l.length := by
  induction l with
  | nil => rfl
  | cons a tl ih =>
    by_cases hp : p a <;> simp [List.filter_cons, hp, ← ih] <;> omega

theorem filterMap_extract_some {α β γ : Type} (mk : α → β) (sel : β → Option γ)
    (h : α → γ) (H : ∀ a, sel (mk a) = some (h a)) (l : List α) :
    (l.map mk).filterMap sel = l.map h := by
  induction l with
  | nil => rfl
  | cons a tl ih => simp [List.filterMap_cons, H a, ih]

theorem filterMap_extract_none {α β γ : Type} (mk : α → β) (sel : β → Option γ)
    (H : ∀ a, sel (mk a) = none) (l : List α) :
    (l.map mk).filterMap sel = [] := by
  induction l with
  | nil => rfl
  | cons a tl ih => simp [List.filterMap_cons, H a, ih]

theorem filterMap_filterMap_of {α β γ : Type} (f : α → Option β) (sel : β → Option γ)
    (g : α → Option γ) (H : ∀ a, (f a).bind sel = g a) (l : List α) :
    (l.filterMap f).filterMap sel = l.filterMap g := by
  induction l with
  | nil => rfl
  | cons a tl ih =>
    rcases hf : f a with _ | b
    · have hg : g a = none := by rw [← H a, hf]; rfl
      simp [List.filterMap_cons, hf, hg, ih]
    · have hg : g a = sel b := by rw [← H a, hf]; rfl
      rcases hs : sel b with _ | c
      · simp [List.filterMap_cons, hf, hg, hs, ih]
      · simp [List.filterMap_cons, hf, hg, hs, ih]

theorem detectWeek_added_ids (week : Nat) (S C : WeekMap) :
    changeIdsOfType (detectWeekChanges week S C) "added"
      = (C.filter (fun p => ! (keysOf S).contains p.1)).map (·.1) := by
  unfold detectWeekChanges changeIdsOfType
  simp only [List.filterMap_append]
  rw [filterMap_extract_some
    (fun p : String × NormLesson =>
      (⟨"added", week, p.2.day_number, p.2.lesson_number, none, some p.2, some p.1⟩ : SChange))
    _ (fun p => p.1) (fun p => by rw [if_pos rfl])]
  rw [filterMap_extract_none
    (fun p : String × NormLesson =>
      (⟨"removed", week, p.2.day_number, p.2.lesson_number, some p.2, none, some p.1⟩ : SChange))
    _ (fun p => (by rw [if_neg (by decide)] :
      (if ("removed" : String) = "added" then some p.1 else none) = none))]
  rw [filterMap_filterMap_of _ _ (fun _ => none) (fun p => ?_), filterMap_none_eq_nil,
    List.append_nil, List.append_nil]
  dsimp only
  rcases alookup S p.1 with _ | sl
  · rfl
  · dsimp only
    by_cases he : lessonFieldsEq p.2 sl
    · rw [if_pos he]
      rfl
    · rw [if_neg he]
      show (if ("modified" : String) = "added" then some p.1 else none) = none
      rw [if_neg (by decide)]

theorem detectWeek_removed_ids (week : Nat) (S C : WeekMap) :
    changeIdsOfType (detectWeekChanges week S C) "removed"
      = (S.filter (fun p => ! (keysOf C).contains p.1)).map (·.1) := by
  unfold detectWeekChanges changeIdsOfType
  simp only [List.filterMap_append]
  rw [filterMap_extract_none
    (fun p : String × NormLesson =>
      (⟨"added", week, p.2.day_number, p.2.lesson_number, none, some p.2, some p.1⟩ : SChange))
    _ (fun p => (by rw [if_neg (by decide)] :
      (if ("added" : String) = "removed" then some p.1 else none) = none))]
  rw [filterMap_extract_some
    (fun p : String × NormLesson =>
      (⟨"removed", week, p.2.day_number, p.2.lesson_number, some p.2, none, some p.1⟩ : SChange))
    _ (fun p => p.1) (fun p => by rw [if_pos rfl])]
  rw [filterMap_filterMap_of _ _ (fun _ => none) (fun p => ?_), filterMap_none_eq_nil,
    List.nil_append, List.append_nil]
  dsimp only
  rcases alookup S p.1 with _ | sl
  · rfl
  · dsimp only
    by_cases he : lessonFieldsEq p.2 sl
    · rw [if_pos he]
      rfl
    · rw [if_neg he]
      show (if ("modified" : String) = "removed" then some p.1 else none) = none
      rw [if_neg (by decide)]

theorem detectWeek_modified_ids (week : Nat) (S C : WeekMap) :
    changeIdsOfType (detectWeekChanges week S C) "modified"
      = C.filterMap (fun p =>
          match alookup S p.1 with
          | none => none
          | some sl => if lessonFieldsEq p.2 sl then none else some p.1) := by
  unfold detectWeekChanges changeIdsOfType
  simp only [List.filterMap_append]
  rw [filterMap_extract_none
    (fun p : String × NormLesson =>
      (⟨"added", week, p.2.day_number, p.2.lesson_number, none, some p.2, some p.1⟩ : SChange))
    _ (fun p => (by rw [if_neg (by decide)] :
      (if ("added" : String) = "modified" then some p.1 else none) = none))]
  rw [filterMap_extract_none
    (fun p : String × NormLesson =>
      (⟨"removed", week, p.2.day_number, p.2.lesson_number, some p.2, none, some p.1⟩ : SChange))
    _ (fun p => (by rw [if_neg (by decide)] :
      (if ("removed" : String) = "modified" then some p.1 else none) = none))]
  rw [filterMap_filterMap_of _ _
    (fun p =>
      match alookup S p.1 with
      | none => none
      | some sl => if lessonFieldsEq p.2 sl then none else some p.1) (fun p => ?_),
    List.nil_append, List.nil_append]
  dsimp only
  rcases alookup S p.1 with _ | sl
  · rfl
  · dsimp only
    by_cases he : lessonFieldsEq p.2 sl
    · rw [if_pos he, if_pos he]
      rfl
    · rw [if_neg he, if_neg he]
      show (if ("modified" : String) = "modified" then some p.1 else none) = some p.1
      rw [if_pos rfl]

theorem contains_iff_mem (l : List String) (i : String) :
    l.contains i = true ↔ i ∈ l := by
  induction l with
  | nil => simp
  | cons a tl ih => simp

theorem mem_map_fst_filter {α : Type} (g : String × α → Bool)
    (l : List (String × α)) (i : String) :
    i ∈ (l.filter g).map (·.1) ↔ ∃ v, (i, v) ∈ l ∧ g (i, v) = true := by
  constructor
  · intro h
    rcases List.mem_map.mp h with ⟨⟨k, v⟩, hm, he⟩
    rcases List.mem_filter.mp hm with ⟨hl, hg⟩
    cases he
    exact ⟨v, hl, hg⟩
  · rintro ⟨v, hl, hg⟩
    exact List.mem_map.mpr ⟨(i, v), List.mem_filter.mpr ⟨hl, hg⟩, rfl⟩

theorem mem_keysOf_iff {α : Type} (l : List (String × α)) (i : String) :
    i ∈ keysOf l ↔ ∃ v, (i, v) ∈ l := by
  unfold keysOf
  constructor
  · intro h
    rcases List.mem_map.mp h with ⟨⟨k, v⟩, hm, he⟩
    cases he
    exact ⟨v, hm⟩
  · rintro ⟨v, h⟩
    exact List.mem_map.mpr ⟨(i, v), h, rfl⟩

theorem mem_added_iff (week : Nat) (S C : WeekMap) (i : String) :
    i ∈ changeIdsOfType (detectWeekChanges week S C) "added"
      ↔ i ∈ keysOf C ∧ i ∉ keysOf S := by
  rw [detectWeek_added_ids, mem_map_fst_filter]
  constructor
  · rintro ⟨v, hm, hg⟩
    refine ⟨(mem_keysOf_iff C i).mpr ⟨v, hm⟩, fun hs => ?_⟩
    dsimp only at hg
    rw [Bool.not_eq_true'] at hg
    rw [(contains_iff_mem _ _).mpr hs] at hg
    cases hg
  · rintro ⟨hc, hs⟩
    obtain ⟨v, hv⟩ := (mem_keysOf_iff C i).mp hc
    refine ⟨v, hv, ?_⟩
    show (! (keysOf S).contains i) = true
    rw [Bool.not_eq_true']
    rcases hcon : (keysOf S).contains i
    · rfl
    · exact absurd ((contains_iff_mem _ _).mp hcon) hs

theorem mem_removed_iff (week : Nat) (S C : WeekMap) (i : String) :
    i ∈ changeIdsOfType (detectWeekChanges week S C) "removed"
      ↔ i ∈ keysOf S ∧ i ∉ keysOf C := by
  rw [detectWeek_removed_ids, mem_map_fst_filter]
  constructor
  · rintro ⟨v, hm, hg⟩
    refine ⟨(mem_keysOf_iff S i).mpr ⟨v, hm⟩, fun hs => ?_⟩
    dsimp only at hg
    rw [Bool.not_eq_true'] at hg
    rw [(contains_iff_mem _ _).mpr hs] at hg
    cases hg
  · rintro ⟨hc, hs⟩
    obtain ⟨v, hv⟩ := (mem_keysOf_iff S i).mp hc
    refine ⟨v, hv, ?_⟩
    show (! (keysOf C).contains i) = true
    rw [Bool.not_eq_true']
    rcases hcon : (keysOf C).contains i
    · rfl
    · exact absurd ((contains_iff_mem _ _).mp hcon) hs

theorem mem_modified_iff (week : Nat) (S C : WeekMap) (i : String) :
    i ∈ changeIdsOfType (detectWeekChanges week S C) "modified"
      ↔ ∃ v sl, (i, v) ∈ C ∧ alookup S i = some sl ∧ lessonFieldsEq v sl = false := by
  rw [detectWeek_modified_ids, List.mem_filterMap]
  constructor
  · rintro ⟨⟨k, v⟩, hm, hf⟩
    dsimp only at hf
    rcases hs : alookup S k with _ | sl
    · rw [hs] at hf
      cases hf
    · rw [hs] at hf
      dsimp only at hf
      by_cases he : lessonFieldsEq v sl
      · rw [if_pos he] at hf
        cases hf
      · rw [if_neg he] at hf
        injection hf with hki
        subst hki
        exact ⟨v, sl, hm, hs, by simpa using he⟩
  · rintro ⟨v, sl, hm, hs, hne⟩
    refine ⟨(i, v), hm, ?_⟩
    dsimp only
    rw [hs]
    dsimp only
    rw [if_neg (by simp [hne])]

theorem mem_unchanged_iff (S C : WeekMap) (i : String) :
    i ∈ unchangedIds S C
      ↔ ∃ v sl, (i, v) ∈ C ∧ alookup S i = some sl ∧ lessonFieldsEq v sl = true := by
  unfold unchangedIds
  rw [mem_map_fst_filter]
  constructor
  · rintro ⟨v, hm, hg⟩
    dsimp only at hg
    rcases hs : alookup S i with _ | sl
    · rw [hs] at hg
      cases hg
    · rw [hs] at hg
      dsimp only at hg
      exact ⟨v, sl, hm, rfl, hg⟩
  · rintro ⟨v, sl, hm, hs, he⟩
    refine ⟨v, hm, ?_⟩
    dsimp only
    rw [hs]
    exact he

theorem length_filter_split {α : Type} (p q r : α → Bool)
    (H : ∀ a, ((if p a then 1 else 0) + (if q a then 1 else 0) : Nat)
      = if r a then 1 else 0) (l : List α) :
    (l.filter p).length + (l.filter q).length = (l.filter r).length := by
  induction l with
  | nil => rfl
  | cons a tl ih =>
    have ha := H a
    by_cases hp : p a <;> by_cases hq : q a <;> by_cases hr : r a <;>
      simp [hp, hq, hr] at ha ⊢ <;>
      omega

theorem modified_as_filter (S C : WeekMap) :
    (C.filterMap (fun p =>
        match alookup S p.1 with
        | none => none
        | some sl => if lessonFieldsEq p.2 sl then none else some p.1))
      = (C.filter (fun p =>
          match alookup S p.1 with
          | none => false
          | some sl => ! lessonFieldsEq p.2 sl)).map (·.1) := by
  apply filterMap_eq_map_filter_of
  intro a
  rcases hs : alookup S a.1 with _ | sl
  · rfl
  · dsimp only
    by_cases he : lessonFieldsEq a.2 sl
    · rw [if_pos he, if_neg (by simp [he])]
    · rw [if_neg he, if_pos (by simp [he])]

theorem union_card_eq (S C : WeekMap) (hS : (keysOf S).Nodup)
    (hC : (keysOf C).Nodup) :
    ((keysOf S).toFinset ∪ (keysOf C).toFinset).card
      = C.length + (S.filter (fun p => ! (keysOf C).contains p.1)).length := by
  have h1 : (keysOf S).toFinset ∪ (keysOf C).toFinset
      = (keysOf C).toFinset ∪ ((keysOf S).toFinset \ (keysOf C).toFinset) := by
    rw [Finset.union_sdiff_self_eq_union]
    exact Finset.union_comm _ _
  rw [h1, Finset.card_union_of_disjoint Finset.disjoint_sdiff]
  congr 1
  · rw [List.toFinset_card_of_nodup hC]
    simp [keysOf]
  · have h2 : (keysOf S).toFinset \ (keysOf C).toFinset
        = (keysOf (S.filter (fun p => ! (keysOf C).contains p.1))).toFinset := by
      ext i
      simp only [Finset.mem_sdiff, List.mem_toFinset]
      rw [mem_keysOf_iff, mem_keysOf_iff, mem_keysOf_iff]
      constructor
      · rintro ⟨⟨v, hv⟩, hnc⟩
        refine ⟨v, List.mem_filter.mpr ⟨hv, ?_⟩⟩
        dsimp only
        rw [Bool.not_eq_true']
        rcases hcon : (keysOf C).contains i
        · rfl
        · exact absurd ((mem_keysOf_iff C i).mp ((contains_iff_mem _ _).mp hcon)) hnc
      · rintro ⟨v, hv⟩
        rcases List.mem_filter.mp hv with ⟨hmem, hg⟩
        dsimp only at hg
        rw [Bool.not_eq_true'] at hg
        refine ⟨⟨v, hmem⟩, fun hc => ?_⟩
        rw [(contains_iff_mem _ _).mpr ((mem_keysOf_iff C i).mpr hc)] at hg
        cases hg
    rw [h2]
    have hnd : (keysOf (S.filter (fun p => ! (keysOf C).contains p.1))).Nodup := by
      unfold keysOf
      exact hS.sublist ((List.filter_sublist S).map (fun x => x.1))
    rw [List.toFinset_card_of_nodup hnd]
    simp [keysOf]

theorem filter_true_eq {α : Type} (l : List α) : l.filter (fun _ => true) = l := by
  induction l with
  | nil => rfl
  | cons a tl ih => simp [List.filter_cons, ih]

/-- C5: for every previous snapshot slice `S` and current normalised
schedule slice `C` over the same (group, week) — both with the key
uniqueness of Python dictionaries — the diff classifies each identity in
the union of the key sets into exactly one of added, removed, modified or
unchanged, and the four class sizes add up to the size of the union. -/
theorem c5_diff_completeness (week : Nat) (S C : WeekMap)
    (hS : (keysOf S).Nodup) (hC : (keysOf C).Nodup) :
    (∀ i : String,
        i ∈ (keysOf S).toFinset ∪ (keysOf C).toFinset ↔
          (i ∈ changeIdsOfType (detectWeekChanges week S C) "added"
            ∨ i ∈ changeIdsOfType (detectWeekChanges week S C) "removed"
            ∨ i ∈ changeIdsOfType (detectWeekChanges week S C) "modified"
            ∨ i ∈ unchangedIds S C))
    ∧ (∀ i ∈ (keysOf S).toFinset ∪ (keysOf C).toFinset,
        ExactlyOneOfFour
          (i ∈ changeIdsOfType (detectWeekChanges week S C) "added")
          (i ∈ changeIdsOfType (detectWeekChanges week S C) "removed")
          (i ∈ changeIdsOfType (detectWeekChanges week S C) "modified")
          (i ∈ unchangedIds S C))
    ∧ (changeIdsOfType (detectWeekChanges week S C) "added").length
        + (changeIdsOfType (detectWeekChanges week S C) "removed").length
        + (changeIdsOfType (detectWeekChanges week S C) "modified").length
        + (unchangedIds S C).length
      = ((keysOf S).toFinset ∪ (keysOf C).toFinset).card := by
  have hcover : ∀ i : String, (i ∈ keysOf S ∨ i ∈ keysOf C) ↔
      (i ∈ changeIdsOfType (detectWeekChanges week S C) "added"
        ∨ i ∈ changeIdsOfType (detectWeekChanges week S C) "removed"
        ∨ i ∈ changeIdsOfType (detectWeekChanges week S C) "modified"
        ∨ i ∈ unchangedIds S C) := by
    intro i
    constructor
    · intro h
      by_cases hc : i ∈ keysOf C
      · by_cases hs : i ∈ keysOf S
        · obtain ⟨v, hv⟩ := (mem_keysOf_iff C i).mp hc
          obtain ⟨sl, hw⟩ := (mem_keysOf_iff S i).mp hs
          have hsl : alookup S i = some sl := mem_alookup_nodup hS hw
          rcases hf : lessonFieldsEq v sl
          · exact Or.inr (Or.inr (Or.inl
              ((mem_modified_iff week S C i).mpr ⟨v, sl, hv, hsl, hf⟩)))
          · exact Or.inr (Or.inr (Or.inr
              ((mem_unchanged_iff S C i).mpr ⟨v, sl, hv, hsl, hf⟩)))
        · exact Or.inl ((mem_added_iff week S C i).mpr ⟨hc, hs⟩)
      · rcases h with hs | hc2
        · exact Or.inr (Or.inl ((mem_removed_iff week S C i).mpr ⟨hs, hc⟩))
        · exact absurd hc2 hc
    · intro h
      rcases h with h | h | h | h
      · exact Or.inr ((mem_added_iff week S C i).mp h).1
      · exact Or.inl ((mem_removed_iff week S C i).mp h).1
      · obtain ⟨v, sl, hm, _, _⟩ := (mem_modified_iff week S C i).mp h
        exact Or.inr ((mem_keysOf_iff C i).mpr ⟨v, hm⟩)
      · obtain ⟨v, sl, hm, _, _⟩ := (mem_unchanged_iff S C i).mp h
        exact Or.inr ((mem_keysOf_iff C i).mpr ⟨v, hm⟩)
  have hAR : ∀ i, i ∈ changeIdsOfType (detectWeekChanges week S C) "added" →
      i ∈ changeIdsOfType (detectWeekChanges week S C) "removed" → False := by
    intro i h1 h2
    exact ((mem_added_iff week S C i).mp h1).2 ((mem_removed_iff week S C i).mp h2).1
  have hAM : ∀ i, i ∈ changeIdsOfType (detectWeekChanges week S C) "added" →
      i ∈ changeIdsOfType (detectWeekChanges week S C) "modified" → False := by
    intro i h1 h3
    obtain ⟨v, sl, hm, hsl, _⟩ := (mem_modified_iff week S C i).mp h3
    exact ((mem_added_iff week S C i).mp h1).2
      ((alookup_isSome_iff_mem_keys S i).mp (by rw [hsl]; rfl))
  have hAU : ∀ i, i ∈ changeIdsOfType (detectWeekChanges week S C) "added" →
      i ∈ unchangedIds S C → False := by
    intro i h1 h4
    obtain ⟨v, sl, hm, hsl, _⟩ := (mem_unchanged_iff S C i).mp h4
    exact ((mem_added_iff week S C i).mp h1).2
      ((alookup_isSome_iff_mem_keys S i).mp (by rw [hsl]; rfl))
  have hRM : ∀ i, i ∈ changeIdsOfType (detectWeekChanges week S C) "removed" →
      i ∈ changeIdsOfType (detectWeekChanges week S C) "modified" → False := by
    intro i h2 h3
    obtain ⟨v, sl, hm, _, _⟩ := (mem_modified_iff week S C i).mp h3
    exact ((mem_removed_iff week S C i).mp h2).2 ((mem_keysOf_iff C i).mpr ⟨v, hm⟩)
  have hRU : ∀ i, i ∈ changeIdsOfType (detectWeekChanges week S C) "removed" →
      i ∈ unchangedIds S C → False := by
    intro i h2 h4
    obtain ⟨v, sl, hm, _, _⟩ := (mem_unchanged_iff S C i).mp h4
    exact ((mem_removed_iff week S C i).mp h2).2 ((mem_keysOf_iff C i).mpr ⟨v, hm⟩)
  have hMU : ∀ i, i ∈ changeIdsOfType (detectWeekChanges week S C) "modified" →
      i ∈ unchangedIds S C → False := by
    intro i h3 h4
    obtain ⟨v, sl, hm, hsl, hf⟩ := (mem_modified_iff week S C i).mp h3
    obtain ⟨v', sl', hm', hsl', hf'⟩ := (mem_unchanged_iff S C i).mp h4
    have hv : v = v' := Option.some_injective _
      ((mem_alookup_nodup hC hm).symm.trans (mem_alookup_nodup hC hm'))
    have hsl2 : sl = sl' := Option.some_injective _ (hsl.symm.trans hsl')
    rw [hv, hsl2, hf'] at hf
    cases hf
  refine ⟨?_, ?_, ?_⟩
  · intro i
    rw [Finset.mem_union, List.mem_toFinset, List.mem_toFinset]
    exact hcover i
  · intro i hi
    rw [Finset.mem_union, List.mem_toFinset, List.mem_toFinset] at hi
    rcases (hcover i).mp hi with h | h | h | h
    · exact Or.inl ⟨h, fun h2 => hAR i h h2, fun h3 => hAM i h h3, fun h4 => hAU i h h4⟩
    · exact Or.inr (Or.inl ⟨fun h1 => hAR i h1 h, h,
        fun h3 => hRM i h h3, fun h4 => hRU i h h4⟩)
    · exact Or.inr (Or.inr (Or.inl ⟨fun h1 => hAM i h1 h, fun h2 => hRM i h2 h,
        h, fun h4 => hMU i h h4⟩))
    · exact Or.inr (Or.inr (Or.inr ⟨fun h1 => hAU i h1 h, fun h2 => hRU i h2 h,
        fun h3 => hMU i h3 h, h⟩))
  · rw [detectWeek_added_ids, detectWeek_removed_ids, detectWeek_modified_ids,
      modified_as_filter, union_card_eq S C hS hC]
    unfold unchangedIds
    simp only [List.length_map]
    have hMU2 : (C.filter (fun p =>
          match alookup S p.1 with
          | none => false
          | some sl => ! lessonFieldsEq p.2 sl)).length
        + (C.filter (fun p =>
          match alookup S p.1 with
          | none => false
          | some sl => lessonFieldsEq p.2 sl)).length
        = (C.filter (fun p => (keysOf S).contains p.1)).length := by
      apply length_filter_split
      intro a
      dsimp only
      rcases hs : alookup S a.1 with _ | sl
      · have hns : (keysOf S).contains a.1 = false := by
          rcases hcon : (keysOf S).contains a.1
          · rfl
          · have hm := (contains_iff_mem _ _).mp hcon
            rw [← alookup_isSome_iff_mem_keys, hs] at hm
            cases hm
        have hnm : a.1 ∉ keysOf S := by
          intro hm
          rw [(contains_iff_mem _ _).mpr hm] at hns
          cases hns
        simp [hns, hnm]
      · have hmem : a.1 ∈ keysOf S :=
          (alookup_isSome_iff_mem_keys S a.1).mp (by rw [hs]; rfl)
        have hcs : (keysOf S).contains a.1 = true := (contains_iff_mem _ _).mpr hmem
        rcases hf : lessonFieldsEq a.2 sl <;> simp [hf, hcs, hmem]
    have hCA : (C.filter (fun p => ! (keysOf S).contains p.1)).length
        + (C.filter (fun p => (keysOf S).contains p.1)).length
        = (C.filter (fun _ => true)).length := by
      apply length_filter_split
      intro a
      dsimp only
      rcases hcon : (keysOf S).contains a.1
      · have hnm : a.1 ∉ keysOf S := by
          intro hm
          rw [(contains_iff_mem _ _).mpr hm] at hcon
          cases hcon
        simp [hcon, hnm]
      · simp [hcon, (contains_iff_mem _ _).mp hcon]
    rw [filter_true_eq] at hCA
    omega

/-- Witness for C5 at a concrete pair of slices: one identity only in the
snapshot, one only in the current week, one common identity with a changed
office. -/
theorem c5_diff_completeness_witness :
    (∀ i : String,
        i ∈ (keysOf [("ida", (⟨"ida", 1, 1, "Alg", "L", "100", "T1"⟩ : NormLesson)),
              ("idb", ⟨"idb", 2, 2, "Geo", "S", "200", "T2"⟩)]).toFinset
            ∪ (keysOf [("idb", (⟨"idb", 2, 2, "Geo", "S", "201", "T2"⟩ : NormLesson)),
              ("idc", ⟨"idc", 3, 3, "Ana", "L", "300", "T3"⟩)]).toFinset ↔
          (i ∈ changeIdsOfType (detectWeekChanges 5
              [("ida", ⟨"ida", 1, 1, "Alg", "L", "100", "T1"⟩),
                ("idb", ⟨"idb", 2, 2, "Geo", "S", "200", "T2"⟩)]
              [("idb", ⟨"idb", 2, 2, "Geo", "S", "201", "T2"⟩),
                ("idc", ⟨"idc", 3, 3, "Ana", "L", "300", "T3"⟩)]) "added"
            ∨ i ∈ changeIdsOfType (detectWeekChanges 5
              [("ida", ⟨"ida", 1, 1, "Alg", "L", "100", "T1"⟩),
                ("idb", ⟨"idb", 2, 2, "Geo", "S", "200", "T2"⟩)]
              [("idb", ⟨"idb", 2, 2, "Geo", "S", "201", "T2"⟩),
                ("idc", ⟨"idc", 3, 3, "Ana", "L", "300", "T3"⟩)]) "removed"
            ∨ i ∈ changeIdsOfType (detectWeekChanges 5
              [("ida", ⟨"ida", 1, 1, "Alg", "L", "100", "T1"⟩),
                ("idb", ⟨"idb", 2, 2, "Geo", "S", "200", "T2"⟩)]
              [("idb", ⟨"idb", 2, 2, "Geo", "S", "201", "T2"⟩),
                ("idc", ⟨"idc", 3, 3, "Ana", "L", "300", "T3"⟩)]) "modified"
            ∨ i ∈ unchangedIds
              [("ida", ⟨"ida", 1, 1, "Alg", "L", "100", "T1"⟩),
                ("idb", ⟨"idb", 2, 2, "Geo", "S", "200", "T2"⟩)]
              [("idb", ⟨"idb", 2, 2, "Geo", "S", "201", "T2"⟩),
                ("idc", ⟨"idc", 3, 3, "Ana", "L", "300", "T3"⟩)]))
    ∧ (∀ i ∈ (keysOf [("ida", (⟨"ida", 1, 1, "Alg", "L", "100", "T1"⟩ : NormLesson)),
              ("idb", ⟨"idb", 2, 2, "Geo", "S", "200", "T2"⟩)]).toFinset
            ∪ (keysOf [("idb", (⟨"idb", 2, 2, "Geo", "S", "201", "T2"⟩ : NormLesson)),
              ("idc", ⟨"idc", 3, 3, "Ana", "L", "300", "T3"⟩)]).toFinset,
        ExactlyOneOfFour
          (i ∈ changeIdsOfType (detectWeekChanges 5
              [("ida", ⟨"ida", 1, 1, "Alg", "L", "100", "T1"⟩),
                ("idb", ⟨"idb", 2, 2, "Geo", "S", "200", "T2"⟩)]
              [("idb", ⟨"idb", 2, 2, "Geo", "S", "201", "T2"⟩),
                ("idc", ⟨"idc", 3, 3, "Ana", "L", "300", "T3"⟩)]) "added")
          (i ∈ changeIdsOfType (detectWeekChanges 5
              [("ida", ⟨"ida", 1, 1, "Alg", "L", "100", "T1"⟩),
                ("idb", ⟨"idb", 2, 2, "Geo", "S", "200", "T2"⟩)]
              [("idb", ⟨"idb", 2, 2, "Geo", "S", "201", "T2"⟩),
                ("idc", ⟨"idc", 3, 3, "Ana", "L", "300", "T3"⟩)]) "removed")
          (i ∈ changeIdsOfType (detectWeekChanges 5
              [("ida", ⟨"ida", 1, 1, "Alg", "L", "100", "T1"⟩),
                ("idb", ⟨"idb", 2, 2, "Geo", "S", "200", "T2"⟩)]
              [("idb", ⟨"idb", 2, 2, "Geo", "S", "201", "T2"⟩),
                ("idc", ⟨"idc", 3, 3, "Ana", "L", "300", "T3"⟩)]) "modified")
          (i ∈ unchangedIds
              [("ida", ⟨"ida", 1, 1, "Alg", "L", "100", "T1"⟩),
                ("idb", ⟨"idb", 2, 2, "Geo", "S", "200", "T2"⟩)]
              [("idb", ⟨"idb", 2, 2, "Geo", "S", "201", "T2"⟩),
                ("idc", ⟨"idc", 3, 3, "Ana", "L", "300", "T3"⟩)]))
    ∧ (changeIdsOfType (detectWeekChanges 5
          [("ida", ⟨"ida", 1, 1, "Alg", "L", "100", "T1"⟩),
            ("idb", ⟨"idb", 2, 2, "Geo", "S", "200", "T2"⟩)]
          [("idb", ⟨"idb", 2, 2, "Geo", "S", "201", "T2"⟩),
            ("idc", ⟨"idc", 3, 3, "Ana", "L", "300", "T3"⟩)]) "added").length
        + (changeIdsOfType (detectWeekChanges 5
          [("ida", ⟨"ida", 1, 1, "Alg", "L", "100", "T1"⟩),
            ("idb", ⟨"idb", 2, 2, "Geo", "S", "200", "T2"⟩)]
          [("idb", ⟨"idb", 2, 2, "Geo", "S", "201", "T2"⟩),
            ("idc", ⟨"idc", 3, 3, "Ana", "L", "300", "T3"⟩)]) "removed").length
        + (changeIdsOfType (detectWeekChanges 5
          [("ida", ⟨"ida", 1, 1, "Alg", "L", "100", "T1"⟩),
            ("idb", ⟨"idb", 2, 2, "Geo", "S", "200", "T2"⟩)]
          [("idb", ⟨"idb", 2, 2, "Geo", "S", "201", "T2"⟩),
            ("idc", ⟨"idc", 3, 3, "Ana", "L", "300", "T3"⟩)]) "modified").length
        + (unchangedIds
          [("ida", ⟨"ida", 1, 1, "Alg", "L", "100", "T1"⟩),
            ("idb", ⟨"idb", 2, 2, "Geo", "S", "200", "T2"⟩)]
          [("idb", ⟨"idb", 2, 2, "Geo", "S", "201", "T2"⟩),
            ("idc", ⟨"idc", 3, 3, "Ana", "L", "300", "T3"⟩)]).length
      = ((keysOf [("ida", (⟨"ida", 1, 1, "Alg", "L", "100", "T1"⟩ : NormLesson)),
            ("idb", ⟨"idb", 2, 2, "Geo", "S", "200", "T2"⟩)]).toFinset
          ∪ (keysOf [("idb", (⟨"idb", 2, 2, "Geo", "S", "201", "T2"⟩ : NormLesson)),
            ("idc", ⟨"idc", 3, 3, "Ana", "L", "300", "T3"⟩)]).toFinset).card :=
  c5_diff_completeness 5
    [("ida", ⟨"ida", 1, 1, "Alg", "L", "100", "T1"⟩),
      ("idb", ⟨"idb", 2, 2, "Geo", "S", "200", "T2"⟩)]
    [("idb", ⟨"idb", 2, 2, "Geo", "S", "201", "T2"⟩),
      ("idc", ⟨"idc", 3, 3, "Ana", "L", "300", "T3"⟩)]
    (by decide) (by decide)

/-! ## Claim C6 — the lesson identity function -/

theorem string_data_inj {s t : String} (h : s.data = t.data) : s = t := by
  cases s
  cases t
  exact congrArg String.mk h

theorem md5Digest_length (msg : List Nat) : (md5Digest msg).length = 16 := by
  simp [md5Digest, wordLE4]

theorem flatten_map_byteHex_length (l : List Nat) :
    ((l.map byteHex).flatten).length = 2 * l.length := by
  induction l with
  | nil => rfl
  | cons a tl ih =>
    simp only [List.map_cons, List.flatten_cons, List.length_append, ih,
      List.length_cons]
    simp [byteHex]
    omega

theorem md5HexChars_length (s : String) : (md5HexChars s).length = 32 := by
  unfold md5HexChars
  rw [flatten_map_byteHex_length, md5Digest_length]

theorem hexCh_mem (n : Nat) : hexCh n ∈ hexDigits := by
  unfold hexCh
  rcases Nat.lt_or_ge n 16 with h | h
  · interval_cases n <;> decide
  · rw [List.getD_eq_default]
    · decide
    · show hexDigits.length ≤ n
      have : hexDigits.length = 16 := by decide
      omega

theorem md5HexChars_mem (s : String) : ∀ c ∈ md5HexChars s, c ∈ hexDigits := by
  intro c hc
  unfold md5HexChars at hc
  rcases List.mem_flatten.mp hc with ⟨piece, hp, hcp⟩
  rcases List.mem_map.mp hp with ⟨b, _, hb⟩
  subst hb
  rcases List.mem_cons.mp hcp with h | h
  · rw [h]
    exact hexCh_mem _
  · rcases List.mem_cons.mp h with h₂ | h₂
    · rw [h₂]
      exact hexCh_mem _
    · simp at h₂

theorem get_lesson_id_format (g : String) (w d n : Nat) (na ty te : String) :
    (get_lesson_id g w d n na ty te).data.length = 32
      ∧ ∀ c ∈ (get_lesson_id g w d n na ty te).data, c ∈ hexDigits := by
  constructor
  · show ((md5HexChars (lessonHashInput g w d n na ty te)).take 32).length = 32
    rw [List.length_take, md5HexChars_length]
    rfl
  · intro c hc
    have hc2 : c ∈ md5HexChars (lessonHashInput g w d n na ty te) :=
      List.mem_of_mem_take hc
    exact md5HexChars_mem _ c hc2

theorem hexValN_lt (c : Char) : hexValN c < 16 := by
  unfold hexValN
  split <;> omega

theorem hexValN_inj_on : ∀ c₁ ∈ hexDigits, ∀ c₂ ∈ hexDigits,
    hexValN c₁ = hexValN c₂ → c₁ = c₂ := by decide

theorem ofDigits16_inj : ∀ (l₁ l₂ : List Nat), l₁.length = l₂.length →
    (∀ d ∈ l₁, d < 16) → (∀ d ∈ l₂, d < 16) →
    Nat.ofDigits 16 l₁ = Nat.ofDigits 16 l₂ → l₁ = l₂ := by
  intro l₁
  induction l₁ with
  | nil =>
    intro l₂ hl _ _ _
    cases l₂ with
    | nil => rfl
    | cons b tl => simp at hl
  | cons a tl ih =>
    intro l₂ hl h₁ h₂ he
    cases l₂ with
    | nil => simp at hl
    | cons b tl₂ =>
      rw [Nat.ofDigits_cons, Nat.ofDigits_cons] at he
      have ha : a < 16 := h₁ a (by simp)
      have hb : b < 16 := h₂ b (by simp)
      have hab : a = b := by omega
      have htl : Nat.ofDigits 16 tl = Nat.ofDigits 16 tl₂ := by
        have : (16 : ℕ) * Nat.ofDigits 16 tl = 16 * Nat.ofDigits 16 tl₂ := by omega
        omega
      subst hab
      rw [ih tl₂ (by simpa using hl) (fun d hd => h₁ d (by simp [hd]))
        (fun d hd => h₂ d (by simp [hd])) htl]

theorem map_hexValN_inj : ∀ (l₁ l₂ : List Char), (∀ c ∈ l₁, c ∈ hexDigits) →
    (∀ c ∈ l₂, c ∈ hexDigits) → l₁.map hexValN = l₂.map hexValN → l₁ = l₂ := by
  intro l₁
  induction l₁ with
  | nil =>
    intro l₂ _ _ h
    cases l₂ with
    | nil => rfl
    | cons b tl => simp at h
  | cons a tl ih =>
    intro l₂ h₁ h₂ h
    cases l₂ with
    | nil => simp at h
    | cons b tl₂ =>
      simp only [List.map_cons, List.cons.injEq] at h
      rw [hexValN_inj_on a (h₁ a (by simp)) b (h₂ b (by simp)) h.1,
        ih tl₂ (fun c hc => h₁ c (by simp [hc])) (fun c hc => h₂ c (by simp [hc])) h.2]

theorem hexStrCode_lt (s : String) (h : s.data.length = 32) :
    hexStrCode s < 16 ^ 32 := by
  unfold hexStrCode
  have hlt : Nat.ofDigits 16 (s.data.map hexValN) < 16 ^ (s.data.map hexValN).length :=
    Nat.ofDigits_lt_base_pow_length (by norm_num) (by
      intro x hx
      rcases List.mem_map.mp hx with ⟨c, _, hc⟩
      subst hc
      exact hexValN_lt c)
  simpa [List.length_map, h] using hlt

theorem c6_collision_exists : ∃ na na' : String, na ≠ na' ∧
    get_lesson_id "G" 1 1 1 na "L" "T" = get_lesson_id "G" 1 1 1 na' "L" "T" := by
  have hfin : ∀ k : Nat,
      hexStrCode (get_lesson_id "G" 1 1 1 (String.mk (List.replicate k 'a')) "L" "T")
        < 16 ^ 32 :=
    fun k => hexStrCode_lt
      (get_lesson_id "G" 1 1 1 (String.mk (List.replicate k 'a')) "L" "T")
      (get_lesson_id_format "G" 1 1 1 (String.mk (List.replicate k 'a')) "L" "T").1
  obtain ⟨m, n, hmn, hf⟩ := Finite.exists_ne_map_eq_of_infinite
    (fun k : Nat =>
      (⟨hexStrCode (get_lesson_id "G" 1 1 1 (String.mk (List.replicate k 'a')) "L" "T"),
        hfin k⟩ : Fin (16 ^ 32)))
  have hcode : hexStrCode (get_lesson_id "G" 1 1 1 (String.mk (List.replicate m 'a')) "L" "T")
      = hexStrCode (get_lesson_id "G" 1 1 1 (String.mk (List.replicate n 'a')) "L" "T") := by
    have h2 := hf
    simp only [Fin.mk.injEq] at h2
    exact h2
  have hna : String.mk (List.replicate m 'a') ≠ String.mk (List.replicate n 'a') := by
    intro he
    apply hmn
    have hlen := congrArg (fun s : String => s.data.length) he
    simpa using hlen
  have hfmt1 := get_lesson_id_format "G" 1 1 1 (String.mk (List.replicate m 'a')) "L" "T"
  have hfmt2 := get_lesson_id_format "G" 1 1 1 (String.mk (List.replicate n 'a')) "L" "T"
  have hdata : (get_lesson_id "G" 1 1 1 (String.mk (List.replicate m 'a')) "L" "T").data
      = (get_lesson_id "G" 1 1 1 (String.mk (List.replicate n 'a')) "L" "T").data := by
    apply map_hexValN_inj _ _ hfmt1.2 hfmt2.2
    apply ofDigits16_inj
    · simp [List.length_map, hfmt1.1, hfmt2.1]
    · intro dd hd
      rcases List.mem_map.mp hd with ⟨c, _, hc⟩
      subst hc
      exact hexValN_lt c
    · intro dd hd
      rcases List.mem_map.mp hd with ⟨c, _, hc⟩
      subst hc
      exact hexValN_lt c
    · exact hcode
  exact ⟨String.mk (List.replicate m 'a'), String.mk (List.replicate n 'a'),
    hna, string_data_inj hdata⟩

/-- C6 counterexample: the claim as stated — changing any single one of the
seven input fields always changes the returned identity — is false for the
code's hash-based identity: `get_lesson_id` returns a 32-character hex
digest, so its range is finite, and among the infinitely many possible
lesson names two distinct ones must collide while every other field is
held fixed. -/
theorem c6_single_field_change_not_injective :
    ¬ (∀ (g : String) (w d n : Nat) (na ty te na' : String), na ≠ na' →
        get_lesson_id g w d n na ty te ≠ get_lesson_id g w d n na' ty te) := by
  intro h
  obtain ⟨na, na', hne, he⟩ := c6_collision_exists
  exact h "G" 1 1 1 na "L" "T" na' hne he

/-- C6 amended: `get_lesson_id` is deterministic — it is a function of its
seven inputs, and two calls on identical inputs return the same value — and
always returns a 32-character lowercase-hexadecimal string; changing any
single one of the seven input fields changes the string fed to the hash
(so the identity changes unless MD5 itself collides on the two inputs,
which the spec only rules out "with overwhelming probability"). -/
theorem c6_identity_deterministic_and_preimage :
    (∀ g w d n na ty te,
        (get_lesson_id g w d n na ty te).data.length = 32
          ∧ ∀ c ∈ (get_lesson_id g w d n na ty te).data, c ∈ hexDigits)
    ∧ (∀ (g : String) (w d n : Nat) (na ty te : String) (g' : String)
        (w' d' n' : Nat) (na' ty' te' : String), g = g' → w = w' → d = d' →
        n = n' → na = na' → ty = ty' → te = te' →
        get_lesson_id g w d n na ty te = get_lesson_id g' w' d' n' na' ty' te')
    ∧ (∀ g g' w d n na ty te, g ≠ g' →
        lessonHashInput g w d n na ty te ≠ lessonHashInput g' w d n na ty te)
    ∧ (∀ g w w' d n na ty te, w ≠ w' →
        lessonHashInput g w d n na ty te ≠ lessonHashInput g w' d n na ty te)
    ∧ (∀ g w d d' n na ty te, d ≠ d' →
        lessonHashInput g w d n na ty te ≠ lessonHashInput g w d' n na ty te)
    ∧ (∀ g w d n n' na ty te, n ≠ n' →
        lessonHashInput g w d n na ty te ≠ lessonHashInput g w d n' na ty te)
    ∧ (∀ g w d n na na' ty te, na ≠ na' →
        lessonHashInput g w d n na ty te ≠ lessonHashInput g w d n na' ty te)
    ∧ (∀ g w d n na ty ty' te, ty ≠ ty' →
        lessonHashInput g w d n na ty te ≠ lessonHashInput g w d n na ty' te)
    ∧ (∀ g w d n na ty te te', te ≠ te' →
        lessonHashInput g w d n na ty te ≠ lessonHashInput g w d n na ty te') := by
  refine ⟨get_lesson_id_format, ?_, ?_, ?_, ?_, ?_, ?_, ?_, ?_⟩
  · intro g w d n na ty te g' w' d' n' na' ty' te' h1 h2 h3 h4 h5 h6 h7
    rw [h1, h2, h3, h4, h5, h6, h7]
  · intro g g' w d n na ty te hne he
    apply hne
    have hd := congrArg String.data he
    simp only [lessonHashInput, String.data_append, List.append_assoc] at hd
    exact string_data_inj (List.append_cancel_right hd)
  · intro g w w' d n na ty te hne he
    apply hne
    have hd := congrArg String.data he
    simp only [lessonHashInput, String.data_append, List.append_assoc] at hd
    exact natRepr_inj (string_data_inj
      (List.append_cancel_right (List.append_cancel_left hd)))
  · intro g w d d' n na ty te hne he
    apply hne
    have hd := congrArg String.data he
    simp only [lessonHashInput, String.data_append, List.append_assoc] at hd
    exact natRepr_inj (string_data_inj (List.append_cancel_right
      (List.append_cancel_left (List.append_cancel_left hd))))
  · intro g w d n n' na ty te hne he
    apply hne
    have hd := congrArg String.data he
    simp only [lessonHashInput, String.data_append, List.append_assoc] at hd
    exact natRepr_inj (string_data_inj (List.append_cancel_right
      (List.append_cancel_left (List.append_cancel_left (List.append_cancel_left hd)))))
  · intro g w d n na na' ty te hne he
    apply hne
    have hd := congrArg String.data he
    simp only [lessonHashInput, String.data_append, List.append_assoc] at hd
    exact string_data_inj (List.append_cancel_right
      (List.append_cancel_left (List.append_cancel_left
        (List.append_cancel_left (List.append_cancel_left hd)))))
  · intro g w d n na ty ty' te hne he
    apply hne
    have hd := congrArg String.data he
    simp only [lessonHashInput, String.data_append, List.append_assoc] at hd
    exact string_data_inj (List.append_cancel_right
      (List.append_cancel_left (List.append_cancel_left (List.append_cancel_left
        (List.append_cancel_left (List.append_cancel_left hd))))))
  · intro g w d n na ty te te' hne he
    apply hne
    have hd := congrArg String.data he
    simp only [lessonHashInput, String.data_append, List.append_assoc] at hd
    exact string_data_inj
      (List.append_cancel_left (List.append_cancel_left (List.append_cancel_left
        (List.append_cancel_left (List.append_cancel_left (List.append_cancel_left hd))))))

/-- Witness for C6's amended theorem: the format clause and the week clause
at concrete inputs (changing the week from 11 to 12 changes the hashed
string). -/
theorem c6_identity_deterministic_and_preimage_witness :
    (get_lesson_id "IT11Z" 11 1 3 "Math" "Lecture" "Popescu V.").data.length = 32
    ∧ lessonHashInput "IT11Z" 11 1 3 "Math" "Lecture" "Popescu V."
        ≠ lessonHashInput "IT11Z" 12 1 3 "Math" "Lecture" "Popescu V." :=
  ⟨(c6_identity_deterministic_and_preimage.1 "IT11Z" 11 1 3 "Math" "Lecture" "Popescu V.").1,
    c6_identity_deterministic_and_preimage.2.2.2.1 "IT11Z" 11 12 1 3
      "Math" "Lecture" "Popescu V." (by decide)⟩

/-! ## Claim C9 — snapshot serialisation round trip -/

theorem hexV_hexCh (k : Nat) (hk : k < 16) : hexV (hexCh k) = some k := by
  interval_cases k <;> rfl

theorem parseStr_end (r : List Char) : parseStrChars ('"' :: r) = some ([], r) := by
  rw [parseStrChars.eq_def]
  dsimp only
  rw [if_pos rfl]

theorem parseStr_esc_quote (r : List Char) :
    parseStrChars ('\\' :: '"' :: r)
      = (parseStrChars r).map (fun p => ('"' :: p.1, p.2)) := by
  rw [parseStrChars.eq_def]
  dsimp only
  rw [if_neg (by decide : ¬ ('\\' : Char) = '"'), if_pos rfl,
    if_neg (by decide : ¬ ('"' : Char) = 'u'), if_pos rfl]

theorem parseStr_esc_backslash (r : List Char) :
    parseStrChars ('\\' :: '\\' :: r)
      = (parseStrChars r).map (fun p => ('\\' :: p.1, p.2)) := by
  rw [parseStrChars.eq_def]
  dsimp only
  rw [if_neg (by decide : ¬ ('\\' : Char) = '"'), if_pos rfl,
    if_neg (by decide : ¬ ('\\' : Char) = 'u'),
    if_neg (by decide : ¬ ('\\' : Char) = '"'), if_pos rfl]

theorem parseStr_esc_n (r : List Char) :
    parseStrChars ('\\' :: 'n' :: r)
      = (parseStrChars r).map (fun p => (Char.ofNat 10 :: p.1, p.2)) := by
  rw [parseStrChars.eq_def]
  dsimp only
  rw [if_neg (by decide : ¬ ('\\' : Char) = '"'), if_pos rfl,
    if_neg (by decide : ¬ ('n' : Char) = 'u'),
    if_neg (by decide : ¬ ('n' : Char) = '"'),
    if_neg (by decide : ¬ ('n' : Char) = '\\'),
    if_neg (by decide : ¬ ('n' : Char) = '/'), if_pos rfl]

theorem parseStr_esc_r (r : List Char) :
    parseStrChars ('\\' :: 'r' :: r)
      = (parseStrChars r).map (fun p => (Char.ofNat 13 :: p.1, p.2)) := by
  rw [parseStrChars.eq_def]
  dsimp only
  rw [if_neg (by decide : ¬ ('\\' : Char) = '"'), if_pos rfl,
    if_neg (by decide : ¬ ('r' : Char) = 'u'),
    if_neg (by decide : ¬ ('r' : Char) = '"'),
    if_neg (by decide : ¬ ('r' : Char) = '\\'),
    if_neg (by decide : ¬ ('r' : Char) = '/'),
    if_neg (by decide : ¬ ('r' : Char) = 'n'), if_pos rfl]

theorem parseStr_esc_t (r : List Char) :
    parseStrChars ('\\' :: 't' :: r)
      = (parseStrChars r).map (fun p => (Char.ofNat 9 :: p.1, p.2)) := by
  rw [parseStrChars.eq_def]
  dsimp only
  rw [if_neg (by decide : ¬ ('\\' : Char) = '"'), if_pos rfl,
    if_neg (by decide : ¬ ('t' : Char) = 'u'),
    if_neg (by decide : ¬ ('t' : Char) = '"'),
    if_neg (by decide : ¬ ('t' : Char) = '\\'),
    if_neg (by decide : ¬ ('t' : Char) = '/'),
    if_neg (by decide : ¬ ('t' : Char) = 'n'),
    if_neg (by decide : ¬ ('t' : Char) = 'r'), if_pos rfl]

theorem parseStr_esc_b (r : List Char) :
    parseStrChars ('\\' :: 'b' :: r)
      = (parseStrChars r).map (fun p => (Char.ofNat 8 :: p.1, p.2)) := by
  rw [parseStrChars.eq_def]
  dsimp only
  rw [if_neg (by decide : ¬ ('\\' : Char) = '"'), if_pos rfl,
    if_neg (by decide : ¬ ('b' : Char) = 'u'),
    if_neg (by decide : ¬ ('b' : Char) = '"'),
    if_neg (by decide : ¬ ('b' : Char) = '\\'),
    if_neg (by decide : ¬ ('b' : Char) = '/'),
    if_neg (by decide : ¬ ('b' : Char) = 'n'),
    if_neg (by decide : ¬ ('b' : Char) = 'r'),
    if_neg (by decide : ¬ ('b' : Char) = 't'), if_pos rfl]

theorem parseStr_esc_f (r : List Char) :
    parseStrChars ('\\' :: 'f' :: r)
      = (parseStrChars r).map (fun p => (Char.ofNat 12 :: p.1, p.2)) := by
  rw [parseStrChars.eq_def]
  dsimp only
  rw [if_neg (by decide : ¬ ('\\' : Char) = '"'), if_pos rfl,
    if_neg (by decide : ¬ ('f' : Char) = 'u'),
    if_neg (by decide : ¬ ('f' : Char) = '"'),
    if_neg (by decide : ¬ ('f' : Char) = '\\'),
    if_neg (by decide : ¬ ('f' : Char) = '/'),
    if_neg (by decide : ¬ ('f' : Char) = 'n'),
    if_neg (by decide : ¬ ('f' : Char) = 'r'),
    if_neg (by decide : ¬ ('f' : Char) = 't'),
    if_neg (by decide : ¬ ('f' : Char) = 'b'), if_pos rfl]

theorem parseStr_esc_u (r : List Char) (t : Nat) (ht : t < 32) :
    parseStrChars ('\\' :: 'u' :: '0' :: '0' :: hexCh (t / 16) :: hexCh (t % 16) :: r)
      = (parseStrChars r).map (fun p => (Char.ofNat t :: p.1, p.2)) := by
  rw [parseStrChars.eq_def]
  dsimp only
  rw [if_neg (by decide : ¬ ('\\' : Char) = '"'), if_pos rfl, if_pos rfl]
  rw [show hexV '0' = some 0 from rfl,
    hexV_hexCh (t / 16) (by omega), hexV_hexCh (t % 16) (by omega)]
  dsimp only
  have harith : ((0 * 16 + 0) * 16 + t / 16) * 16 + t % 16 = t := by omega
  rw [harith]

theorem parseStr_plain (c : Char) (r : List Char) (h1 : ¬ c = '"')
    (h2 : ¬ c = '\\') :
    parseStrChars (c :: r) = (parseStrChars r).map (fun p => (c :: p.1, p.2)) := by
  rw [parseStrChars.eq_def]
  dsimp only
  rw [if_neg h1, if_neg h2]

theorem escapeChar_named (c : Char) (t : Nat) (e : Char)
    (ht : c.toNat = t)
    (hsel : (t = 10 ∧ e = 'n') ∨ (t = 13 ∧ e = 'r') ∨ (t = 9 ∧ e = 't')
      ∨ (t = 8 ∧ e = 'b') ∨ (t = 12 ∧ e = 'f')) :
    escapeChar c = ['\\', e] := by
  have hq : ¬ c = '"' := by
    intro he
    subst he
    rcases hsel with ⟨h, _⟩ | ⟨h, _⟩ | ⟨h, _⟩ | ⟨h, _⟩ | ⟨h, _⟩ <;> subst h <;>
      exact absurd ht (by decide)
  have hb : ¬ c = '\\' := by
    intro he
    subst he
    rcases hsel with ⟨h, _⟩ | ⟨h, _⟩ | ⟨h, _⟩ | ⟨h, _⟩ | ⟨h, _⟩ <;> subst h <;>
      exact absurd ht (by decide)
  unfold escapeChar
  rw [if_neg hq, if_neg hb]
  rcases hsel with ⟨h, he⟩ | ⟨h, he⟩ | ⟨h, he⟩ | ⟨h, he⟩ | ⟨h, he⟩ <;> subst h <;> subst he
  · rw [if_pos (by omega)]
  · rw [if_neg (by omega), if_pos (by omega)]
  · rw [if_neg (by omega), if_neg (by omega), if_pos (by omega)]
  · rw [if_neg (by omega), if_neg (by omega), if_neg (by omega), if_pos (by omega)]
  · rw [if_neg (by omega), if_neg (by omega), if_neg (by omega), if_neg (by omega),
      if_pos (by omega)]

theorem escapeChar_ctrl (c : Char) (h1 : ¬ c = '"') (h2 : ¬ c = '\\')
    (h3 : ¬ c.toNat = 10) (h4 : ¬ c.toNat = 13) (h5 : ¬ c.toNat = 9)
    (h6 : ¬ c.toNat = 8) (h7 : ¬ c.toNat = 12) (h8 : c.toNat < 32) :
    escapeChar c
      = ['\\', 'u', '0', '0', hexCh (c.toNat / 16), hexCh (c.toNat % 16)] := by
  unfold escapeChar
  rw [if_neg h1, if_neg h2, if_neg h3, if_neg h4, if_neg h5, if_neg h6, if_neg h7,
    if_pos h8]

theorem escapeChar_plain (c : Char) (h1 : ¬ c = '"') (h2 : ¬ c = '\\')
    (h8 : ¬ c.toNat < 32) : escapeChar c = [c] := by
  unfold escapeChar
  rw [if_neg h1, if_neg h2, if_neg (by omega), if_neg (by omega), if_neg (by omega),
    if_neg (by omega), if_neg (by omega), if_neg h8]

theorem parse_escape : ∀ (l rest : List Char),
    parseStrChars ((l.map escapeChar).flatten ++ '"' :: rest) = some (l, rest) := by
  intro l
  induction l with
  | nil =>
    intro rest
    simp only [List.map_nil, List.flatten_nil, List.nil_append]
    exact parseStr_end rest
  | cons c tl ih =>
    intro rest
    simp only [List.map_cons, List.flatten_cons, List.append_assoc]
    by_cases h1 : c = '"'
    · subst h1
      rw [show escapeChar '"' = ['\\', '"'] from rfl]
      rw [show (['\\', '"'] : List Char) ++ ((tl.map escapeChar).flatten ++ '"' :: rest)
          = '\\' :: '"' :: ((tl.map escapeChar).flatten ++ '"' :: rest) from rfl]
      rw [parseStr_esc_quote, ih]
      rfl
    by_cases h2 : c = '\\'
    · subst h2
      rw [show escapeChar '\\' = ['\\', '\\'] from rfl]
      rw [show (['\\', '\\'] : List Char) ++ ((tl.map escapeChar).flatten ++ '"' :: rest)
          = '\\' :: '\\' :: ((tl.map escapeChar).flatten ++ '"' :: rest) from rfl]
      rw [parseStr_esc_backslash, ih]
      rfl
    by_cases h3 : c.toNat = 10
    · rw [escapeChar_named c 10 'n' h3 (Or.inl ⟨rfl, rfl⟩)]
      rw [show (['\\', 'n'] : List Char) ++ ((tl.map escapeChar).flatten ++ '"' :: rest)
          = '\\' :: 'n' :: ((tl.map escapeChar).flatten ++ '"' :: rest) from rfl]
      rw [parseStr_esc_n, ih, ← h3, Char.ofNat_toNat]
      rfl
    by_cases h4 : c.toNat = 13
    · rw [escapeChar_named c 13 'r' h4 (Or.inr (Or.inl ⟨rfl, rfl⟩))]
      rw [show (['\\', 'r'] : List Char) ++ ((tl.map escapeChar).flatten ++ '"' :: rest)
          = '\\' :: 'r' :: ((tl.map escapeChar).flatten ++ '"' :: rest) from rfl]
      rw [parseStr_esc_r, ih, ← h4, Char.ofNat_toNat]
      rfl
    by_cases h5 : c.toNat = 9
    · rw [escapeChar_named c 9 't' h5 (Or.inr (Or.inr (Or.inl ⟨rfl, rfl⟩)))]
      rw [show (['\\', 't'] : List Char) ++ ((tl.map escapeChar).flatten ++ '"' :: rest)
          = '\\' :: 't' :: ((tl.map escapeChar).flatten ++ '"' :: rest) from rfl]
      rw [parseStr_esc_t, ih, ← h5, Char.ofNat_toNat]
      rfl
    by_cases h6 : c.toNat = 8
    · rw [escapeChar_named c 8 'b' h6 (Or.inr (Or.inr (Or.inr (Or.inl ⟨rfl, rfl⟩))))]
      rw [show (['\\', 'b'] : List Char) ++ ((tl.map escapeChar).flatten ++ '"' :: rest)
          = '\\' :: 'b' :: ((tl.map escapeChar).flatten ++ '"' :: rest) from rfl]
      rw [parseStr_esc_b, ih, ← h6, Char.ofNat_toNat]
      rfl
    by_cases h7 : c.toNat = 12
    · rw [escapeChar_named c 12 'f' h7 (Or.inr (Or.inr (Or.inr (Or.inr ⟨rfl, rfl⟩))))]
      rw [show (['\\', 'f'] : List Char) ++ ((tl.map escapeChar).flatten ++ '"' :: rest)
          = '\\' :: 'f' :: ((tl.map escapeChar).flatten ++ '"' :: rest) from rfl]
      rw [parseStr_esc_f, ih, ← h7, Char.ofNat_toNat]
      rfl
    by_cases h8 : c.toNat < 32
    · rw [escapeChar_ctrl c h1 h2 h3 h4 h5 h6 h7 h8]
      rw [show (['\\', 'u', '0', '0', hexCh (c.toNat / 16), hexCh (c.toNat % 16)] : List Char)
            ++ ((tl.map escapeChar).flatten ++ '"' :: rest)
          = '\\' :: 'u' :: '0' :: '0' :: hexCh (c.toNat / 16) :: hexCh (c.toNat % 16)
            :: ((tl.map escapeChar).flatten ++ '"' :: rest) from rfl]
      rw [parseStr_esc_u _ c.toNat h8, ih, Char.ofNat_toNat]
      rfl
    · rw [escapeChar_plain c h1 h2 h8]
      rw [show ([c] : List Char) ++ ((tl.map escapeChar).flatten ++ '"' :: rest)
          = c :: ((tl.map escapeChar).flatten ++ '"' :: rest) from rfl]
      rw [parseStr_plain c _ h1 h2, ih]
      rfl

theorem digitCh_isDigit (d : Nat) (hd : d < 10) : isDigitCh (digitCh d) = true := by
  interval_cases d <;> rfl

theorem digitCh_toNat (d : Nat) (hd : d < 10) : (digitCh d).toNat = 48 + d := by
  interval_cases d <;> rfl

theorem digitCh_not_ws (d : Nat) (hd : d < 10) : isWs (digitCh d) = false := by
  interval_cases d <;> rfl

theorem takeWhile_append_not {α : Type} (p : α → Bool) :
    ∀ (l r : List α), (∀ c ∈ l, p c = true) →
    (∀ c, r.head? = some c → p c = false) →
    (l ++ r).takeWhile p = l ∧ (l ++ r).dropWhile p = r := by
  intro l
  induction l with
  | nil =>
    intro r _ hr
    rcases r with _ | ⟨a, tl⟩
    · exact ⟨rfl, rfl⟩
    · have ha : p a = false := hr a rfl
      constructor
      · simp [List.takeWhile_cons, ha]
      · simp [List.dropWhile_cons, ha]
  | cons a tl ih =>
    intro r hl hr
    have ha : p a = true := hl a (by simp)
    obtain ⟨h1, h2⟩ := ih r (fun c hc => hl c (by simp [hc])) hr
    constructor
    · simp [List.takeWhile_cons, ha, h1]
    · simp [List.dropWhile_cons, ha, h2]

theorem natRepr_data_digits (n : Nat) :
    ∀ c ∈ (natRepr n).data, isDigitCh c = true := by
  intro c hc
  unfold natRepr at hc
  by_cases h : n = 0
  · rw [if_pos h] at hc
    rcases List.mem_cons.mp hc with h1 | h1
    · rw [h1]
      rfl
    · simp at h1
  · rw [if_neg h] at hc
    rcases List.mem_map.mp hc with ⟨d, hd, hdc⟩
    subst hdc
    exact digitCh_isDigit d (Nat.digits_lt_base (by norm_num)
      (List.mem_reverse.mp (by rw [← natDigits_eq_digits]; exact hd)))

theorem natRepr_data_ne_nil (n : Nat) : (natRepr n).data ≠ [] := by
  unfold natRepr
  by_cases h : n = 0
  · rw [if_pos h]
    simp
  · rw [if_neg h]
    show ((natDigits n).reverse.map digitCh) ≠ []
    rw [natDigits_eq_digits]
    simp [Nat.digits_ne_nil_iff_ne_zero.mpr h]

theorem foldl_digitCh (acc : Nat) : ∀ (ds : List Nat), (∀ d ∈ ds, d < 10) →
    ((ds.reverse.map digitCh).foldl (fun a c => a * 10 + (c.toNat - 48)) acc)
      = acc * 10 ^ ds.length + Nat.ofDigits 10 ds := by
  intro ds
  induction ds generalizing acc with
  | nil => simp
  | cons d tl ih =>
    intro hd
    have hdd : d < 10 := hd d (by simp)
    rw [List.reverse_cons, List.map_append, List.foldl_append]
    rw [ih acc (fun x hx => hd x (by simp [hx]))]
    simp only [List.map_cons, List.map_nil, List.foldl_cons, List.foldl_nil]
    rw [digitCh_toNat d hdd, Nat.ofDigits_cons]
    have : 48 + d - 48 = d := by omega
    rw [this]
    simp only [List.length_cons]
    ring

theorem parseNum_natRepr (n : Nat) (rest : List Char)
    (hrest : ∀ c, rest.head? = some c → isDigitCh c = false) :
    parseNum ((natRepr n).data ++ rest) = some (n, rest) := by
  obtain ⟨htw, hdw⟩ :=
    takeWhile_append_not isDigitCh (natRepr n).data rest (natRepr_data_digits n) hrest
  unfold parseNum
  rw [htw, hdw]
  simp only [List.isEmpty_iff]
  rw [if_neg (natRepr_data_ne_nil n)]
  unfold natRepr
  by_cases h : n = 0
  · rw [if_pos h]
    subst h
    rfl
  · rw [if_neg h]
    show some ((((natDigits n).reverse.map digitCh).foldl
        (fun a c => a * 10 + (c.toNat - 48)) 0), rest) = some (n, rest)
    rw [natDigits_eq_digits,
      foldl_digitCh 0 (Nat.digits 10 n) (fun d hd => Nat.digits_lt_base (by norm_num) hd)]
    rw [Nat.ofDigits_digits]
    simp

theorem skipWs_not (c : Char) (cs : List Char) (h : isWs c = false) :
    skipWs (c :: cs) = c :: cs := by
  unfold skipWs
  simp [List.dropWhile_cons, h]

theorem skipWs_newline (cs : List Char) : skipWs ('\n' :: cs) = skipWs cs := by
  unfold skipWs
  simp [List.dropWhile_cons, isWs]

theorem skipWs_spaces (m : Nat) (cs : List Char) :
    skipWs (List.replicate m ' ' ++ cs) = skipWs cs := by
  induction m with
  | zero => simp
  | succ m ih =>
    rw [List.replicate_succ, List.cons_append]
    rw [show skipWs (' ' :: (List.replicate m ' ' ++ cs))
        = skipWs (List.replicate m ' ' ++ cs) from by
      unfold skipWs
      simp [List.dropWhile_cons, isWs]]
    exact ih

theorem skipWs_indent (lvl : Nat) (cs : List Char) :
    skipWs (indentChars lvl ++ cs) = skipWs cs := by
  unfold indentChars
  exact skipWs_spaces (2 * lvl) cs

theorem jsize_pos (v : JVal) : 1 ≤ jsize v := by
  cases v <;> simp [jsize]

theorem msize_pos (ms : List (String × JVal)) : 1 ≤ msize ms := by
  cases ms with
  | nil => simp [msize]
  | cons m tl =>
    rcases m with ⟨k, v⟩
    simp only [msize]
    omega

theorem isDigitCh_not_ws (c : Char) (h : isDigitCh c = true) : isWs c = false := by
  unfold isDigitCh at h
  simp only [Bool.and_eq_true, decide_eq_true_eq] at h
  have h1 : ¬ c = ' ' := fun he => absurd h.1 (by subst he; decide)
  have h2 : ¬ c = '\n' := fun he => absurd h.1 (by subst he; decide)
  have h3 : ¬ c = '\t' := fun he => absurd h.1 (by subst he; decide)
  have h4 : ¬ c = '\r' := fun he => absurd h.1 (by subst he; decide)
  unfold isWs
  simp [h1, h2, h3, h4]

theorem isDigitCh_ne_quote (c : Char) (h : isDigitCh c = true) : ¬ c = '"' :=
  fun he => absurd h (by subst he; decide)

theorem isDigitCh_ne_lbrace (c : Char) (h : isDigitCh c = true) : ¬ c = '{' :=
  fun he => absurd h (by subst he; decide)

theorem renderString_append (s : String) (Z : List Char) :
    renderString s ++ Z
      = '"' :: ((s.data.map escapeChar).flatten ++ '"' :: Z) := by
  simp [renderString, List.cons_append, List.append_assoc]

theorem renderVal_objcons_append (m : String × JVal) (ms : List (String × JVal))
    (lvl : Nat) (rest : List Char) :
    renderVal (.obj (m :: ms)) lvl ++ rest
      = '{' :: '\n' :: (indentChars (lvl + 1)
          ++ (renderMembers (m :: ms) (lvl + 1)
            ++ '\n' :: (indentChars lvl ++ '}' :: rest))) := by
  simp only [renderVal]
  simp [List.cons_append, List.append_assoc]

theorem renderMembers_single_append (k : String) (v : JVal) (lvl : Nat)
    (Z : List Char) :
    renderMembers [(k, v)] lvl ++ Z
      = '"' :: ((k.data.map escapeChar).flatten
          ++ '"' :: (':' :: ' ' :: (renderVal v lvl ++ Z))) := by
  simp only [renderMembers]
  simp only [List.append_assoc]
  rw [renderString_append]
  rfl

theorem renderMembers_cons2_append (k : String) (v : JVal) (m2 : String × JVal)
    (ms2 : List (String × JVal)) (lvl : Nat) (Z : List Char) :
    renderMembers ((k, v) :: m2 :: ms2) lvl ++ Z
      = '"' :: ((k.data.map escapeChar).flatten
          ++ '"' :: (':' :: ' ' :: (renderVal v lvl
            ++ ',' :: '\n' :: (indentChars lvl
              ++ (renderMembers (m2 :: ms2) lvl ++ Z))))) := by
  simp only [renderMembers]
  simp only [List.append_assoc]
  rw [renderString_append]
  rfl

theorem skipWs_renderVal (v : JVal) (lvl : Nat) (Z : List Char) :
    skipWs (renderVal v lvl ++ Z) = renderVal v lvl ++ Z := by
  cases v with
  | str s =>
    rw [show renderVal (.str s) lvl = renderString s from by simp only [renderVal]]
    rw [renderString_append]
    exact skipWs_not _ _ (by decide)
  | num n =>
    rw [show renderVal (.num n) lvl = (natRepr n).data from by simp only [renderVal]]
    rcases hrep : (natRepr n).data with _ | ⟨c, cs⟩
    · exact absurd hrep (natRepr_data_ne_nil n)
    · have hc : isDigitCh c = true := natRepr_data_digits n c (by rw [hrep]; simp)
      rw [List.cons_append]
      exact skipWs_not _ _ (isDigitCh_not_ws c hc)
  | obj ms =>
    cases ms with
    | nil =>
      rw [show renderVal (.obj []) lvl = ['{', '}'] from by simp only [renderVal]]
      rw [show (['{', '}'] : List Char) ++ Z = '{' :: '}' :: Z from rfl]
      exact skipWs_not _ _ (by decide)
    | cons m tl =>
      rw [renderVal_objcons_append]
      exact skipWs_not _ _ (by decide)

theorem renderMembers_cons_exists (m : String × JVal) (ms : List (String × JVal))
    (lvl : Nat) (Z : List Char) :
    ∃ Y, renderMembers (m :: ms) lvl ++ Z = '"' :: Y := by
  rcases m with ⟨k, v⟩
  cases ms with
  | nil => exact ⟨_, renderMembers_single_append k v lvl Z⟩
  | cons m2 ms2 => exact ⟨_, renderMembers_cons2_append k v m2 ms2 lvl Z⟩

theorem renderMembers_skipWs (m : String × JVal) (ms : List (String × JVal))
    (lvl : Nat) (Z : List Char) :
    skipWs (renderMembers (m :: ms) lvl ++ Z) = renderMembers (m :: ms) lvl ++ Z := by
  obtain ⟨Y, hY⟩ := renderMembers_cons_exists m ms lvl Z
  rw [hY]
  exact skipWs_not _ _ (by decide)

theorem skipWs_space (cs : List Char) : skipWs (' ' :: cs) = skipWs cs := by
  unfold skipWs
  simp [List.dropWhile_cons, isWs]

theorem parseVal_quote (fuel : Nat) (tl : List Char) :
    parseVal (fuel + 1) ('"' :: tl)
      = (parseStrChars tl).map (fun p => (JVal.str (String.mk p.1), p.2)) := by
  rw [parseVal]
  rw [skipWs_not _ _ (by decide)]
  dsimp only
  rw [if_pos rfl]

theorem parseVal_digit (fuel : Nat) (c : Char) (tl : List Char)
    (hc : isDigitCh c = true) :
    parseVal (fuel + 1) (c :: tl)
      = (parseNum (c :: tl)).map (fun p => (JVal.num p.1, p.2)) := by
  rw [parseVal]
  rw [skipWs_not _ _ (isDigitCh_not_ws c hc)]
  dsimp only
  rw [if_neg (isDigitCh_ne_quote c hc), if_neg (isDigitCh_ne_lbrace c hc), if_pos hc]

theorem parseVal_emptyObj (fuel : Nat) (rest : List Char) :
    parseVal (fuel + 1) ('{' :: '}' :: rest) = some (JVal.obj [], rest) := by
  rw [parseVal]
  rw [skipWs_not _ _ (by decide)]
  dsimp only
  rw [if_neg (by decide), if_pos rfl]
  rw [skipWs_not _ _ (by decide)]
  dsimp only
  rw [if_pos rfl]

theorem parseVal_lbrace (fuel : Nat) (tl : List Char) (c2 : Char) (r2 : List Char)
    (h2 : skipWs tl = c2 :: r2) (hne : ¬ c2 = '}') :
    parseVal (fuel + 1) ('{' :: tl)
      = (parseMembers fuel (c2 :: r2)).map (fun p => (JVal.obj p.1, p.2)) := by
  rw [parseVal]
  rw [skipWs_not _ _ (by decide)]
  dsimp only
  rw [if_neg (by decide), if_pos rfl, h2]
  dsimp only
  rw [if_neg hne]

theorem parse_render_mutual : ∀ fuel : Nat,
    (∀ (v : JVal) (lvl : Nat) (rest : List Char), jsize v ≤ fuel →
      (∀ c, rest.head? = some c → isDigitCh c = false) →
      parseVal fuel (renderVal v lvl ++ rest) = some (v, rest)) ∧
    (∀ (ms : List (String × JVal)) (lvl lvl2 : Nat) (rest : List Char),
      ms ≠ [] → msize ms ≤ fuel →
      parseMembers fuel
        (renderMembers ms lvl ++ '\n' :: (indentChars lvl2 ++ '}' :: rest))
        = some (ms, rest)) := by
  intro fuel
  induction fuel with
  | zero =>
    constructor
    · intro v lvl rest hv _
      exact absurd hv (by have := jsize_pos v; omega)
    · intro ms lvl lvl2 rest _ hm
      exact absurd hm (by have := msize_pos ms; omega)
  | succ fuel ih =>
    obtain ⟨ih1, ih2⟩ := ih
    constructor
    · intro v lvl rest hv hrest
      cases v with
      | str s =>
        rw [show renderVal (.str s) lvl = renderString s from by simp only [renderVal]]
        rw [renderString_append, parseVal_quote, parse_escape]
        rfl
      | num n =>
        rw [show renderVal (.num n) lvl = (natRepr n).data from by simp only [renderVal]]
        rcases hrep : (natRepr n).data with _ | ⟨c, cs⟩
        · exact absurd hrep (natRepr_data_ne_nil n)
        · have hc : isDigitCh c = true := natRepr_data_digits n c (by rw [hrep]; simp)
          rw [List.cons_append, parseVal_digit fuel c (cs ++ rest) hc,
            ← List.cons_append, ← hrep, parseNum_natRepr n rest hrest]
          rfl
      | obj ms1 =>
        cases ms1 with
        | nil =>
          rw [show renderVal (.obj []) lvl = ['{', '}'] from by simp only [renderVal]]
          rw [show (['{', '}'] : List Char) ++ rest = '{' :: '}' :: rest from rfl]
          exact parseVal_emptyObj fuel rest
        | cons m ms1 =>
          rw [renderVal_objcons_append]
          have hms : msize (m :: ms1) ≤ fuel := by
            simp only [jsize] at hv
            omega
          obtain ⟨Y, hY⟩ := renderMembers_cons_exists m ms1 (lvl + 1)
            ('\n' :: (indentChars lvl ++ '}' :: rest))
          have hskip : skipWs ('\n' :: (indentChars (lvl + 1)
              ++ (renderMembers (m :: ms1) (lvl + 1)
                ++ '\n' :: (indentChars lvl ++ '}' :: rest))))
              = '"' :: Y := by
            rw [skipWs_newline, skipWs_indent, renderMembers_skipWs]
            exact hY
          rw [parseVal_lbrace fuel _ '"' Y hskip (by decide), ← hY]
          rw [ih2 (m :: ms1) (lvl + 1) lvl rest (by simp) hms]
          rfl
    · intro ms lvl lvl2 rest hne hm
      cases ms with
      | nil => exact absurd rfl hne
      | cons m ms1 =>
        rcases m with ⟨k, v⟩
        cases ms1 with
        | nil =>
          have hjv : jsize v ≤ fuel := by
            simp only [msize] at hm
            omega
          rw [renderMembers_single_append]
          rw [parseMembers]
          try dsimp only
          rw [if_pos rfl, parse_escape]
          try dsimp only
          rw [skipWs_not _ _ (by decide)]
          try dsimp only
          rw [if_pos rfl, skipWs_space, skipWs_renderVal]
          rw [ih1 v lvl ('\n' :: (indentChars lvl2 ++ '}' :: rest)) hjv
            (by intro c hc; simp only [List.head?_cons, Option.some.injEq] at hc;
                rw [← hc]; decide)]
          try dsimp only
          rw [skipWs_newline, skipWs_indent, skipWs_not _ _ (by decide)]
          try dsimp only
          rw [if_neg (by decide), if_pos rfl]
        | cons m2 ms2 =>
          rcases m2 with ⟨k2, v2⟩
          have hjv : jsize v ≤ fuel := by
            simp only [msize] at hm
            have := jsize_pos v2
            omega
          have hms2 : msize ((k2, v2) :: ms2) ≤ fuel := by
            simp only [msize] at hm ⊢
            have := jsize_pos v
            omega
          rw [renderMembers_cons2_append]
          rw [parseMembers]
          try dsimp only
          rw [if_pos rfl, parse_escape]
          try dsimp only
          rw [skipWs_not _ _ (by decide)]
          try dsimp only
          rw [if_pos rfl, skipWs_space, skipWs_renderVal]
          rw [ih1 v lvl (',' :: '\n' :: (indentChars lvl
              ++ (renderMembers ((k2, v2) :: ms2) lvl
                ++ '\n' :: (indentChars lvl2 ++ '}' :: rest)))) hjv
            (by intro c hc; simp only [List.head?_cons, Option.some.injEq] at hc;
                rw [← hc]; decide)]
          try dsimp only
          rw [skipWs_not _ _ (by decide)]
          try dsimp only
          rw [if_pos rfl, skipWs_newline, skipWs_indent, renderMembers_skipWs]
          rw [ih2 ((k2, v2) :: ms2) lvl lvl2 rest (by simp) hms2]
          rfl

theorem size_le_render_strong : ∀ n : Nat,
    (∀ (v : JVal) (lvl : Nat), jsize v ≤ n →
      jsize v ≤ (renderVal v lvl).length) ∧
    (∀ (ms : List (String × JVal)) (lvl : Nat), ms ≠ [] → msize ms ≤ n →
      msize ms ≤ (renderMembers ms lvl).length) := by
  intro n
  induction n with
  | zero =>
    constructor
    · intro v lvl hv
      exact absurd hv (by have := jsize_pos v; omega)
    · intro ms lvl _ hm
      exact absurd hm (by have := msize_pos ms; omega)
  | succ n ih =>
    obtain ⟨ih1, ih2⟩ := ih
    constructor
    · intro v lvl hv
      cases v with
      | str s =>
        simp only [jsize, renderVal, renderString]
        simp
      | num n' =>
        simp only [jsize, renderVal]
        have := natRepr_data_ne_nil n'
        rcases h : (natRepr n').data with _ | ⟨c, cs⟩
        · exact absurd h this
        · simp
      | obj ms1 =>
        cases ms1 with
        | nil => simp [jsize, msize, renderVal]
        | cons m ms1 =>
          have hm : msize (m :: ms1) ≤ n := by
            simp only [jsize] at hv
            omega
          have h2 := ih2 (m :: ms1) (lvl + 1) (by simp) hm
          simp only [jsize, renderVal, List.length_append, List.length_cons,
            List.length_nil]
          omega
    · intro ms lvl hne hm
      cases ms with
      | nil => exact absurd rfl hne
      | cons m ms1 =>
        rcases m with ⟨k, v⟩
        cases ms1 with
        | nil =>
          have hjv : jsize v ≤ n := by
            simp only [msize] at hm
            omega
          have h1 := ih1 v lvl hjv
          simp only [msize, renderMembers, renderString, List.length_append,
            List.length_cons, List.length_nil]
          omega
        | cons m2 ms2 =>
          rcases m2 with ⟨k2, v2⟩
          have hjv : jsize v ≤ n := by
            simp only [msize] at hm
            have := jsize_pos v2
            omega
          have hms2 : msize ((k2, v2) :: ms2) ≤ n := by
            simp only [msize] at hm ⊢
            have := jsize_pos v
            omega
          have h1 := ih1 v lvl hjv
          have h2 := ih2 ((k2, v2) :: ms2) lvl (by simp) hms2
          simp only [msize, renderMembers, renderString, List.length_append,
            List.length_cons, List.length_nil] at h2 ⊢
          omega

theorem jsize_le_render (v : JVal) (lvl : Nat) :
    jsize v ≤ (renderVal v lvl).length :=
  (size_le_render_strong (jsize v)).1 v lvl le_rfl

theorem parseVal_render (v : JVal) :
    parseVal ((renderVal v 0).length + 1) (renderVal v 0) = some (v, []) := by
  have h := (parse_render_mutual ((renderVal v 0).length + 1)).1 v 0 []
    (le_trans (jsize_le_render v 0) (by omega))
    (by intro c hc; simp at hc)
  simpa using h

theorem omap_map {α β : Type} (f : α → Option β) (g : β → α) :
    ∀ (l : List β), (∀ b ∈ l, f (g b) = some b) → omap f (l.map g) = some l := by
  intro l
  induction l with
  | nil => intro _; rfl
  | cons b tl ih =>
    intro h
    have hb := h b (by simp)
    simp only [List.map_cons, omap, hb]
    rw [ih (fun x hx => h x (by simp [hx]))]
    rfl

theorem decodeLesson_encodeLesson (l : NormLesson) :
    decodeLesson (encodeLesson l) = some l := rfl

theorem decodeWeek_encodeWeek (wm : WeekMap) :
    decodeWeek (encodeWeek wm) = some wm := by
  show omap _ (wm.map _) = some wm
  refine omap_map _ _ wm (fun b _ => ?_)
  show (decodeLesson (encodeLesson b.2)).map (fun l => (b.1, l)) = some b
  rw [decodeLesson_encodeLesson]
  rfl

theorem decodeSched_encodeSched (s : Sched) :
    decodeSched (encodeSched s) = some s := by
  show omap _ (s.map _) = some s
  refine omap_map _ _ s (fun b _ => ?_)
  show (decodeWeek (encodeWeek b.2)).map (fun w => (b.1, w)) = some b
  rw [decodeWeek_encodeWeek]
  rfl

theorem decodeSnap_encodeSnap (s : Snap) :
    decodeSnap (encodeSnap s) = some s := by
  show omap _ (s.map _) = some s
  refine omap_map _ _ s (fun b _ => ?_)
  show (decodeSched (encodeSched b.2)).map (fun w => (b.1, w)) = some b
  rw [decodeSched_encodeSched]
  rfl

/-- C9: the snapshot serialisation round-trips exactly: loading the saved
file of any snapshot `S` recovers `S` itself (no field loss), and hence
saving the loaded value reproduces the first save byte for byte —
`save_snapshot(load_snapshot(save_snapshot(S))) == save_snapshot(S)`. -/
theorem c9_snapshot_roundtrip (S : Snap) :
    loadSnapshotStr (saveSnapshotStr S) = some S ∧
    (loadSnapshotStr (saveSnapshotStr S)).map saveSnapshotStr
      = some (saveSnapshotStr S) := by
  have hload : loadSnapshotStr (saveSnapshotStr S) = some S := by
    unfold loadSnapshotStr saveSnapshotStr
    show (match parseVal ((renderVal (encodeSnap S) 0).length + 1)
        (renderVal (encodeSnap S) 0) with
      | some (v, rest) => if (skipWs rest).isEmpty then decodeSnap v else none
      | none => none) = some S
    rw [parseVal_render (encodeSnap S)]
    show (if (skipWs []).isEmpty then decodeSnap (encodeSnap S) else none) = some S
    rw [if_pos (by rfl)]
    exact decodeSnap_encodeSnap S
  exact ⟨hload, by rw [hload]; rfl⟩
